import Mathlib

/-!
# The sgcloud cluster-autoscaler provider: a shallow embedding

The development follows the Go sources under
`cluster-autoscaler/cloudprovider/sgcloud`:

* `sgcloud_auto_scaling_group.go`, `sgcloud_manager.go`, `sgcloud_cloud_provider.go`
  (the node-group layer: size guards, same-group check, add and remove calls, and
  the construction of the groups from their specs),
* `sgcloud-sdk-go/core/core.go`, `core/request.go`, `cc/cluster.go`
  (the retry policy, the retrying transport and the request builders),
* `sgcloud-sdk-go/util/util.go` (percent-encoding, the canonical query string and
  the URL of a request).

Conventions.

* A Go `int`, `int64` or `time.Duration` is a Lean `Int`; every place where the
  Go code does arithmetic on such a value at run time wraps the result with
  `wrapInt64`.
* A Go function that returns `error` returns a `CallResult`; every remote call,
  registry lookup and sleep it performs is recorded, in order, in a list of
  `Event`s returned next to the result.
* The remote service (`sgcloudWrapper`, which forwards to the HTTP client) and the
  group registry (`autoScalingGroupCache`, whose source is not among the files)
  are records of response functions.
* The reader of node-group specs (`dynamic.SpecFromString`) is not among the files
  either; it is modelled from the specification, over a function that reads the
  fields.
-/

namespace Sgcloud

/-! ## Machine integers -/

/-- Two-complement wrap-around of a mathematical integer into the range of a
64-bit signed Go integer (`int`, `int64`, `time.Duration`). -/
def wrapInt64 (x : Int) : Int := (x + 2 ^ 63) % 2 ^ 64 - 2 ^ 63

/-- Largest value of a 64-bit signed Go integer. -/
def maxInt64 : Int := 2 ^ 63 - 1

/-! ## Errors -/

/-- Modelled from the spec: the type `core.Error` (file `core/error.go`) is not among
the sources; the code reads its field `StatusCode`, and the spec says an API error
preserves "status code + raw body". -/
structure Error where
  StatusCode : Int
  Body : String
  deriving DecidableEq, Repr

/-- A non-nil Go `error` value: either one whose dynamic type is `*core.Error`
(the only type the retry policy asserts on) or any other error, identified by its
message (`errors.New`, `fmt.Errorf`, errors of `net/http`). -/
inductive GoError where
  | bceError (e : Error)
  | errorString (msg : String)
  deriving DecidableEq, Repr

/-- The text `err.Error()` yields. -/
def GoError.Error : GoError → String
  | .bceError e => e.Body
  | .errorString msg => msg

/-- Outcome of a Go function whose only result is an `error`: `success` is a nil
error, `failure err` a non-nil one, `nilDeref` a run-time panic caused by reading a
field through a nil pointer. -/
inductive CallResult where
  | success
  | failure (err : GoError)
  | nilDeref
  deriving DecidableEq, Repr

/-- The function returned a non-nil error. -/
def CallResult.isFailure : CallResult → Bool
  | .failure _ => true
  | _ => false

/-! ## Data of the node-group layer -/

/-- The struct `cc.Instance` of `cc/cluster.go`. -/
structure Instance where
  Id : String
  Name : String := ""
  Role : Int := 0
  Status : Int := 0
  Spec : String := ""
  CpuUse : String := ""
  MemUse : String := ""
  UpTime : String := ""
  VmId : String := ""
  NodeId : String := ""
  deriving DecidableEq, Repr

/-- The struct `cc.AddInstanceArgs`. -/
structure AddInstanceArgs where
  ClusterID : String
  Delta : Int
  deriving DecidableEq, Repr

/-- The struct `cc.RemoveInstanceArgs`; `NodeInfos` is the slice sent as `nodeId`. -/
structure RemoveInstanceArgs where
  ClusterID : String
  NodeInfos : List String
  deriving DecidableEq, Repr

/-- The fields of `CloudConfig` the node-group layer reads. -/
structure CloudConfig where
  ClusterID : String
  Region : String := ""
  CcRegion : String := ""
  CcEndpoint : String := ""
  deriving DecidableEq, Repr

/-- The struct `AutoScalingGroup`. Its field `manager` is a back pointer to the one
manager of the provider; the methods below take that manager as the argument `m`. -/
structure AutoScalingGroup where
  groupID : String
  groupName : String := ""
  regionID : String := ""
  minSize : Int
  maxSize : Int
  deriving DecidableEq, Repr

/-- The part of a Kubernetes `apiv1.Node` the provider reads: `node.Name` and
`node.Spec.ProviderID`. -/
structure Node where
  Name : String
  ProviderID : String
  deriving DecidableEq, Repr

/-- What a call leaves behind, in program order. -/
inductive Event where
  /-- A call of `sgcloudWrapper.getScalingInstancesByCluster` (the size query). -/
  | listNodes (clusterID : String)
  /-- A call of `sgcloudWrapper.IncreaseCapcityInstanceSize` (add instances). -/
  | addInstances (args : AddInstanceArgs)
  /-- A call of `sgcloudWrapper.RemoveInstances` (remove instances). -/
  | removeInstances (args : RemoveInstanceArgs)
  /-- A call of `autoScalingGroupCache.FindForInstance` (registry lookup). -/
  | findForInstance (instanceId : String)
  /-- A call of `time.Sleep` with the given duration in nanoseconds. -/
  | sleep (d : Int)
  /-- One `httpClient.Do`: the bytes of the request body handed to the transport. -/
  | httpSend (body : String)
  deriving DecidableEq, Repr

/-- The remote service as `sgcloudWrapper` exposes it: what each of its three calls
answers. A `none` answer of the last two is a nil error. -/
structure sgcloudWrapper where
  getScalingInstancesByCluster : String → Except GoError (List Instance)
  IncreaseCapcityInstanceSize : AddInstanceArgs → Option GoError
  RemoveInstances : RemoveInstanceArgs → Option GoError

/-- Modelled from the spec: the type `autoScalingGroupCache` and its method
`FindForInstance` are not among the sources ("findForInstance(instanceId) -> group |
NotFound"). A `*AutoScalingGroup` is an address (`none` is the nil pointer), `heap`
gives the group stored at an address, and `FindForInstance` is the lookup, which
may fail with an error or answer nil without error. -/
structure autoScalingGroupCache where
  heap : Nat → AutoScalingGroup
  FindForInstance : String → Except GoError (Option Nat)

/-- The struct `sgcloudManager`. -/
structure sgcloudManager where
  cloudConfig : CloudConfig
  asgCache : autoScalingGroupCache
  service : sgcloudWrapper

/-- The constant `sdkCoolDownTimeout = 200 * time.Millisecond`, in nanoseconds. -/
def sdkCoolDownTimeout : Int := 200 * 1000000

/-! ## Provider ids -/

/-- The Go call `strings.Split(s, "//")` on the characters of `s`: `cur` holds the
characters of the current piece, in order. The separator is consumed left to
right, without overlap. -/
def splitSlashSlash : List Char → List Char → List (List Char)
  | cur, [] => [cur]
  | cur, '/' :: '/' :: rest => cur :: splitSlashSlash [] rest
  | cur, c :: rest => splitSlashSlash (cur ++ [c]) rest

/-- Source: `getNodeProviderID`, `fmt.Sprintf("sgcloud://%s", id)`. -/
def getNodeProviderID (id : String) : String := "sgcloud://" ++ id

/-- Source: `getInstanceIdFromProviderId`: split at "//" and return the second
piece, or fail when there are fewer than two pieces. -/
def getInstanceIdFromProviderId (id : String) : Except GoError String :=
  match splitSlashSlash [] id.data with
  | _ :: second :: _ => .ok (String.mk second)
  | _ => .error (.errorString ("sgCloud: unexpected ProviderID format, providerID=" ++ id))

/-! ## The manager -/

/-- Source: `sgcloudManager.GetAsgForInstance`. -/
def sgcloudManager.GetAsgForInstance (m : sgcloudManager) (instanceId : String) :
    Except GoError (Option Nat) × List Event :=
  (m.asgCache.FindForInstance instanceId, [.findForInstance instanceId])

/-- Source: `sgcloudManager.GetAsgSize`: the number of instances the remote service
lists for the cluster. -/
def sgcloudManager.GetAsgSize (m : sgcloudManager) (asgConfig : AutoScalingGroup) :
    Except GoError Int × List Event :=
  match m.service.getScalingInstancesByCluster m.cloudConfig.ClusterID with
  | .error err =>
    (.error (.errorString
      ("failed to describe ASG " ++ asgConfig.groupID ++ ",Because of " ++ err.Error)),
     [.listNodes m.cloudConfig.ClusterID])
  | .ok instances => (.ok (Int.ofNat instances.length), [.listNodes m.cloudConfig.ClusterID])

/-- Source: `sgcloudManager.AddInstances`. -/
def sgcloudManager.AddInstances (m : sgcloudManager) (_asg : AutoScalingGroup) (delta : Int) :
    CallResult × List Event :=
  let args : AddInstanceArgs := { ClusterID := m.cloudConfig.ClusterID, Delta := delta }
  match m.service.IncreaseCapcityInstanceSize args with
  | some err =>
    (.failure (.errorString ("ScaleUpCluster error: " ++ err.Error)), [.addInstances args])
  | none => (.success, [.addInstances args])

/-- The loop of `DeleteInstances` that looks every id up and compares the group
found with `commonAsg` (pointer comparison). -/
def sgcloudManager.checkSameAsg (m : sgcloudManager) (commonAsg : Option Nat) :
    List String → CallResult × List Event
  | [] => (.success, [])
  | instanceId :: rest =>
    match m.asgCache.FindForInstance instanceId with
    | .error err => (.failure err, [.findForInstance instanceId])
    | .ok asg =>
      if asg ≠ commonAsg then
        (.failure (.errorString "cannot delete instances which doesn't belong to the same ASG"),
         [.findForInstance instanceId])
      else
        let r := sgcloudManager.checkSameAsg m commonAsg rest
        (r.1, .findForInstance instanceId :: r.2)

/-- Source: `sgcloudManager.DeleteInstances`. The slice `nodeinfos` is made with
`make([]string, len(instanceIds))`, that is with `len(instanceIds)` empty strings,
and the ids are appended to it. On a failed remove call the log line reads
`commonAsg.groupID`, which panics when `commonAsg` is nil. -/
def sgcloudManager.DeleteInstances (m : sgcloudManager) (instanceIds : List String) :
    CallResult × List Event :=
  match instanceIds with
  | [] => (.success, [])
  | first :: _ =>
    match m.asgCache.FindForInstance first with
    | .error err => (.failure err, [.findForInstance first])
    | .ok commonAsg =>
      match m.checkSameAsg commonAsg instanceIds with
      | (.success, t) =>
        let nodeinfos := List.replicate instanceIds.length "" ++ instanceIds
        let args : RemoveInstanceArgs :=
          { ClusterID := m.cloudConfig.ClusterID, NodeInfos := nodeinfos }
        match m.service.RemoveInstances args with
        | some err =>
          match commonAsg with
          | none => (.nilDeref, .findForInstance first :: t ++ [.removeInstances args])
          | some _ => (.failure err, .findForInstance first :: t ++ [.removeInstances args])
        | none =>
          (.success,
           .findForInstance first :: t ++ [.removeInstances args, .sleep sdkCoolDownTimeout])
      | (r, t) => (r, .findForInstance first :: t)

/-! ## The node group -/

/-- Source: `AutoScalingGroup.MaxSize`. -/
def AutoScalingGroup.MaxSize (asg : AutoScalingGroup) : Int := asg.maxSize

/-- Source: `AutoScalingGroup.MinSize`. -/
def AutoScalingGroup.MinSize (asg : AutoScalingGroup) : Int := asg.minSize

/-- Source: `AutoScalingGroup.Id`. -/
def AutoScalingGroup.Id (asg : AutoScalingGroup) : String := asg.groupID

/-- Source: `AutoScalingGroup.IncreaseSize`. The sum `int(size)+delta` is a 64-bit
Go addition. -/
def AutoScalingGroup.IncreaseSize (asg : AutoScalingGroup) (m : sgcloudManager) (delta : Int) :
    CallResult × List Event :=
  if delta ≤ 0 then
    (.failure (.errorString "size increase must be positive"), [])
  else
    match m.GetAsgSize asg with
    | (.error err, t) => (.failure err, t)
    | (.ok size, t) =>
      if wrapInt64 (size + delta) > asg.MaxSize then
        (.failure (.errorString
          ("size increase is too large - desired:" ++ toString (wrapInt64 (size + delta))
            ++ " max:" ++ toString asg.MaxSize)), t)
      else
        let r := m.AddInstances asg delta
        (r.1, t ++ r.2)

/-- Source: `AutoScalingGroup.Belongs`. The result is `(belongs, err)`. -/
def AutoScalingGroup.Belongs (asg : AutoScalingGroup) (m : sgcloudManager) (node : Node) :
    Except GoError Bool × List Event :=
  match getInstanceIdFromProviderId node.ProviderID with
  | .error err => (.error err, [])
  | .ok instanceId =>
    match m.GetAsgForInstance instanceId with
    | (.error err, t) => (.error err, t)
    | (.ok none, t) =>
      (.error (.errorString (node.Name ++ " doesn't belong to a known Asg")), t)
    | (.ok (some targetAsg), t) =>
      if (m.asgCache.heap targetAsg).Id ≠ asg.Id then (.ok false, t) else (.ok true, t)

/-- The loop of `DeleteNodes` over the nodes: every node must belong to the group,
and its instance id is appended to `nodeIds`. -/
def AutoScalingGroup.collectNodeIds (asg : AutoScalingGroup) (m : sgcloudManager) :
    List Node → List String → Except GoError (List String) × List Event
  | [], nodeIds => (.ok nodeIds, [])
  | node :: rest, nodeIds =>
    match asg.Belongs m node with
    | (.error err, t) => (.error err, t)
    | (.ok false, t) =>
      (.error (.errorString (node.Name ++ " belongs to a different asg than " ++ asg.Id)), t)
    | (.ok true, t) =>
      match getInstanceIdFromProviderId node.ProviderID with
      | .error err => (.error err, t)
      | .ok instanceId =>
        let r := AutoScalingGroup.collectNodeIds asg m rest (nodeIds ++ [instanceId])
        (r.1, t ++ r.2)

/-- Source: `AutoScalingGroup.DeleteNodes`. -/
def AutoScalingGroup.DeleteNodes (asg : AutoScalingGroup) (m : sgcloudManager)
    (nodes : List Node) : CallResult × List Event :=
  match m.GetAsgSize asg with
  | (.error err, t) => (.failure err, t)
  | (.ok size, t) =>
    if size ≤ asg.MinSize then
      (.failure (.errorString "min size reached, nodes will not be deleted"), t)
    else
      match asg.collectNodeIds m nodes [] with
      | (.error err, t2) => (.failure err, t ++ t2)
      | (.ok nodeIds, t2) =>
        let r := m.DeleteInstances nodeIds
        (r.1, t ++ t2 ++ r.2)

/-! ## Reading a trace -/

/-- The add-instances calls of a trace, in order. -/
def addCalls : List Event → List AddInstanceArgs
  | [] => []
  | .addInstances args :: rest => args :: addCalls rest
  | _ :: rest => addCalls rest

/-- The remove-instances calls of a trace, in order. -/
def removeCalls : List Event → List RemoveInstanceArgs
  | [] => []
  | .removeInstances args :: rest => args :: removeCalls rest
  | _ :: rest => removeCalls rest

/-- The sleeps of a trace, in order. -/
def sleeps : List Event → List Int
  | [] => []
  | .sleep d :: rest => d :: sleeps rest
  | _ :: rest => sleeps rest

/-- The registry lookups of a trace, in order. -/
def lookups : List Event → List String
  | [] => []
  | .findForInstance instanceId :: rest => instanceId :: lookups rest
  | _ :: rest => lookups rest

/-- The request bodies handed to the HTTP transport, in order. -/
def httpSends : List Event → List String
  | [] => []
  | .httpSend body :: rest => body :: httpSends rest
  | _ :: rest => httpSends rest

/-! ## The retry policy (`core/core.go`) -/

/-- The constant `time.Millisecond`, in nanoseconds (the unit of `time.Duration`). -/
def Millisecond : Int := 1000000

/-- The constant `time.Second`, in nanoseconds. -/
def Second : Int := 1000 * Millisecond

/-- The constant `http.StatusBadRequest`. -/
def StatusBadRequest : Int := 400

/-- The constant `http.StatusInternalServerError`. -/
def StatusInternalServerError : Int := 500

/-- The constant `http.StatusServiceUnavailable`. -/
def StatusServiceUnavailable : Int := 503

/-- The struct `DefaultRetryPolicy`; `MaxDelay` is a `time.Duration`. -/
structure DefaultRetryPolicy where
  MaxErrorRetry : Int
  MaxDelay : Int
  deriving DecidableEq, Repr

/-- Source: `NewDefaultRetryPolicy`. -/
def NewDefaultRetryPolicy (maxErrorRetry : Int) (maxDelay : Int) : DefaultRetryPolicy :=
  { MaxErrorRetry := maxErrorRetry, MaxDelay := maxDelay }

/-- Source: `DefaultRetryPolicy.GetMaxErrorRetry`. -/
def DefaultRetryPolicy.GetMaxErrorRetry (policy : DefaultRetryPolicy) : Int :=
  policy.MaxErrorRetry

/-- Source: `DefaultRetryPolicy.GetMaxDelay`. -/
def DefaultRetryPolicy.GetMaxDelay (policy : DefaultRetryPolicy) : Int :=
  policy.MaxDelay

/-- Source: `DefaultRetryPolicy.shouldRetry`. The type assertion `err.(*Error)`
succeeds exactly on `GoError.bceError`. -/
def DefaultRetryPolicy.shouldRetry (policy : DefaultRetryPolicy) (err : GoError)
    (retriesAttempted : Int) : Bool :=
  if retriesAttempted > policy.GetMaxErrorRetry then false
  else
    match err with
    | .bceError bceError =>
      if bceError.StatusCode = StatusInternalServerError then true
      else if bceError.StatusCode = StatusServiceUnavailable then true
      else false
    | .errorString _ => true

/-- The Go expression `1 << uint(n)` for an `int` value `n`, evaluated in
`time.Duration` (the untyped constant 1 takes the type of the product it stands in).
A shift count of 64 or more gives 0, and `uint(n)` of a negative `n` is such a
count; a count of 63 gives the smallest 64-bit integer. -/
def shiftLeftOne (n : Int) : Int :=
  if 0 ≤ n ∧ n < 64 then wrapInt64 (2 ^ n.toNat) else 0

/-- The Go expression `(1 << uint(retriesAttempted)) * 300 * time.Millisecond`: two
64-bit multiplications. -/
def backoffDuration (retriesAttempted : Int) : Int :=
  wrapInt64 (wrapInt64 (shiftLeftOne retriesAttempted * 300) * Millisecond)

/-- Source: `DefaultRetryPolicy.GetDelayBeforeNextRetry`. -/
def DefaultRetryPolicy.GetDelayBeforeNextRetry (policy : DefaultRetryPolicy) (err : GoError)
    (retriesAttempted : Int) : Int :=
  if !policy.shouldRetry err retriesAttempted then -1
  else
    let duration := backoffDuration retriesAttempted
    if duration > policy.GetMaxDelay then policy.GetMaxDelay else duration

/-! ## The retrying transport (`core/core.go`) -/

/-- The part of an HTTP response the client reads: status code and body. -/
structure Response where
  StatusCode : Int
  Body : String
  deriving DecidableEq, Repr

/-- What one `c.httpClient.Do(req.raw())` answers: a response with a nil error, or
a nil response with a transport-level error (connection refused, timeout, DNS
failure), which is never a `*core.Error`. -/
inductive HttpOutcome where
  | response (resp : Response)
  | transportError (msg : String)
  deriving DecidableEq, Repr

/-- Modelled from the spec: the function `buildError` (file `core/error.go`) is not
among the sources; by the spec the error of a response with status 400 or more is
"a structured API error carrying the HTTP status and response body". -/
def buildError (response : Response) : GoError :=
  .bceError { StatusCode := response.StatusCode, Body := response.Body }

/-- The struct `core.Request` (`http.Request` under another name): method, URL and
body. The body is a reader: `none` is a nil body, `some content` the bytes it still
holds. -/
structure Request where
  Method : String
  URL : String
  Body : Option String
  deriving DecidableEq, Repr

/-- The struct `core.Client` with the fields of its embedded `Config` that the
request path reads. `RetryPolicy` is `none` for a nil interface value. -/
structure core.Client where
  Endpoint : String := ""
  Region : String := ""
  APIVersion : String := ""
  Protocol : String := ""
  RetryPolicy : Option DefaultRetryPolicy := none
  debug : Bool := false
  deriving DecidableEq, Repr

/-- What `SendRequest` returns, `(response, err)`, and the trace of its sends and
sleeps. `response` is `none` when no HTTP response was received. -/
structure SendResult where
  response : Option Response
  err : Option GoError
  trace : List Event
  deriving DecidableEq, Repr

/-- The loop `for i := 0; ; i++` of `SendRequest`, from iteration `i` on. `Do k` is
the outcome of the transport at iteration `k`, `buf` the bytes read from the
request body before the loop. Each iteration sets the body to a fresh reader over
`buf` and sends. Go has no bound on the loop; here `fuel` bounds the number of
iterations, and `none` means the loop was still running when the fuel ran out.
The debug output of the source is left out. -/
def core.Client.sendLoop (policy : DefaultRetryPolicy) (Do : Nat → HttpOutcome) (buf : String) :
    Nat → Nat → Option SendResult
  | 0, _ => none
  | fuel + 1, i =>
    match Do i with
    | .transportError msg =>
      let httpError := GoError.errorString msg
      let duration := policy.GetDelayBeforeNextRetry httpError (wrapInt64 ((i : Int) + 1))
      if duration ≤ 0 then
        some { response := none, err := some httpError, trace := [.httpSend buf] }
      else
        (core.Client.sendLoop policy Do buf fuel (i + 1)).map fun r =>
          { r with trace := .httpSend buf :: .sleep duration :: r.trace }
    | .response resp =>
      if resp.StatusCode ≥ StatusBadRequest then
        let err := buildError resp
        let duration := policy.GetDelayBeforeNextRetry err (wrapInt64 ((i : Int) + 1))
        if duration ≤ 0 then
          some { response := some resp, err := some err, trace := [.httpSend buf] }
        else
          (core.Client.sendLoop policy Do buf fuel (i + 1)).map fun r =>
            { r with trace := .httpSend buf :: .sleep duration :: r.trace }
      else
        some { response := some resp, err := none, trace := [.httpSend buf] }

/-- The retry policy `SendRequest` works with: the configured one, or
`NewDefaultRetryPolicy(3, 20*time.Second)` when none is configured. -/
def core.Client.effectivePolicy (c : core.Client) : DefaultRetryPolicy :=
  match c.RetryPolicy with
  | none => NewDefaultRetryPolicy 3 (20 * Second)
  | some policy => policy

/-- Source: `core.Client.SendRequest`. The body of the request is read once, into
`buf`, before the loop. -/
def core.Client.SendRequest (c : core.Client) (Do : Nat → HttpOutcome) (req : Request)
    (fuel : Nat) : Option SendResult :=
  let buf : String := match req.Body with
    | some content => content
    | none => ""
  core.Client.sendLoop c.effectivePolicy Do buf fuel 0

/-! ## Building requests (`core/request.go`, `cc/cluster.go`) -/

/-- The dynamic values this repository passes to `NewRequest` as `body interface{}`
on the add and remove paths, and `nil`. -/
inductive BodyValue where
  | nil
  | addInstanceArgs (args : AddInstanceArgs)
  | removeInstanceArgs (args : RemoveInstanceArgs)
  | bytesBuffer (content : String)
  deriving DecidableEq, Repr

/-- The standard library and the URL configuration as the request builders see
them. `jsonString` is the JSON text `encoding/json` writes for a Go string (quotes
and escapes), `newRequestError` the error `http.NewRequest` reports for a method and
URL it cannot parse (`none` when it accepts them), `GetURL` the URL that
`cc.Client.GetURL(objectKey, nil)` builds for an object key. -/
structure RequestEnv where
  jsonString : String → String
  newRequestError : String → String → Option GoError
  GetURL : String → String

/-- The Go call `json.Marshal(v)` on the values of `BodyValue`; it does not fail on
any of them. A struct is written as an object of its exported fields under their
`json` tags, in declaration order. A `*bytes.Buffer` is a pointer to a struct with
no exported field and no marshalling method, hence written as the empty object.
`NodeInfos` is a list, which does not tell a nil slice from an empty one: it stands
for a non-nil slice (as `DeleteInstances` builds), written as an array; a nil
slice, which `json.Marshal` writes as `null`, is outside the model. -/
def jsonMarshal (env : RequestEnv) : BodyValue → String
  | .nil => "null"
  | .addInstanceArgs args =>
    "\x7b\"clusterId\":" ++ env.jsonString args.ClusterID ++ ",\"delta\":"
      ++ toString args.Delta ++ "\x7d"
  | .removeInstanceArgs args =>
    "\x7b\"clusterId\":" ++ env.jsonString args.ClusterID ++ ",\"nodeId\":["
      ++ ",".intercalate (args.NodeInfos.map env.jsonString) ++ "]\x7d"
  | .bytesBuffer _ => "\x7b\x7d"

/-- Source: `core.NewRequest`. A non-nil body is passed through `json.Marshal` and
the result becomes the request body; a nil body gives an empty buffer. The branch
for `*os.File` bodies does not apply to the values of `BodyValue`. The method is
kept as the callers give it (`POST` or `GET`); `http.NewRequest` reads an empty
method as `GET`, a case no caller produces. -/
def core.NewRequest (env : RequestEnv) (method url : String) (body : BodyValue) :
    Except GoError Request :=
  let method := method.toUpper
  let buff : String := match body with
    | .nil => ""
    | b => jsonMarshal env b
  match env.newRequestError method url with
  | some err => .error err
  | none => .ok { Method := method, URL := url, Body := some buff }

/-- The struct `cc.Client`, which embeds a `*core.Client`. -/
structure cc.Client where
  Client : core.Client
  deriving DecidableEq, Repr

/-- The error result of a `SendRequest` as the callers `AddInstance` and
`RemoveInstance` return it. -/
def SendResult.toCallResult (r : SendResult) : CallResult × List Event :=
  match r.err with
  | none => (.success, r.trace)
  | some err => (.failure err, r.trace)

/-- Source: `cc.Client.AddInstance`: the args are marshalled to `postContent`, and
`bytes.NewBuffer(postContent)` is what `NewRequest` receives as body. -/
def cc.Client.AddInstance (c : cc.Client) (env : RequestEnv) (Do : Nat → HttpOutcome)
    (args : AddInstanceArgs) (fuel : Nat) : Option (CallResult × List Event) :=
  let postContent := jsonMarshal env (.addInstanceArgs args)
  match core.NewRequest env "POST" (env.GetURL "/cluster/nodes/add") (.bytesBuffer postContent) with
  | .error err => some (.failure err, [])
  | .ok req => (c.Client.SendRequest Do req fuel).map SendResult.toCallResult

/-- Source: `cc.Client.RemoveInstance`. -/
def cc.Client.RemoveInstance (c : cc.Client) (env : RequestEnv) (Do : Nat → HttpOutcome)
    (args : RemoveInstanceArgs) (fuel : Nat) : Option (CallResult × List Event) :=
  let postContent := jsonMarshal env (.removeInstanceArgs args)
  match core.NewRequest env "POST" (env.GetURL "/cluster/nodes/delete")
      (.bytesBuffer postContent) with
  | .error err => some (.failure err, [])
  | .ok req => (c.Client.SendRequest Do req fuel).map SendResult.toCallResult


/-! ## Decreasing the target size (`sgcloud_auto_scaling_group.go`) -/

/-- Modelled from the spec: the value `cloudprovider.ErrNotImplemented` is declared
in a package that is not among the sources; the spec calls it the "not
implemented" error. -/
def ErrNotImplemented : GoError := .errorString "Not implemented"

/-- Source: `AutoScalingGroup.DecreaseTargetSize`. The body of the Go function is
the single statement `return cloudprovider.ErrNotImplemented`; every other line of
it is commented out. -/
def AutoScalingGroup.DecreaseTargetSize (_asg : AutoScalingGroup) (_m : sgcloudManager)
    (_delta : Int) : CallResult × List Event :=
  (.failure ErrNotImplemented, [])

/-! ## Canonical query strings (`sgcloud-sdk-go/util/util.go`)

A Go string is a sequence of bytes, and the functions below work on bytes: here a
Go string is a `List UInt8`. A Go `map[string]string` is `none` when it is nil and
otherwise the list of its entries in the order in which `range` visits them; the
keys of the entries of a map are distinct, and the order is arbitrary. -/

/-- The bytes of a string literal (its UTF-8 encoding, as in a Go source file). -/
def goString (s : String) : List UInt8 := s.data.flatMap String.utf8EncodeChar

/-- The Go expression `"0123456789ABCDEF"[n]` of `net/url`, for `n < 16`. -/
def upperhex (n : Nat) : UInt8 :=
  if n < 10 then UInt8.ofNat (48 + n) else UInt8.ofNat (55 + n)

/-- The function `shouldEscape(c, encodeQueryComponent)` of `net/url`: letters,
digits and the four marks `-`, `_`, `.`, `~` are kept, every other byte is
escaped. -/
def shouldEscape (c : UInt8) : Bool :=
  let n := c.toNat
  if (97 ≤ n ∧ n ≤ 122) ∨ (65 ≤ n ∧ n ≤ 90) ∨ (48 ≤ n ∧ n ≤ 57) then false
  else if n = 45 ∨ n = 95 ∨ n = 46 ∨ n = 126 then false
  else true

/-- The function `url.QueryEscape`: a space becomes `+`, every other byte that
must be escaped becomes `%` and its two upper-case hexadecimal digits
(`c>>4` and `c&15`). -/
def QueryEscape (s : List UInt8) : List UInt8 :=
  s.flatMap fun c =>
    if c = 32 then [43]
    else if shouldEscape c then [37, upperhex (c.toNat / 16), upperhex (c.toNat % 16)]
    else [c]

/-- The Go call `strings.Replace(s, "+", "%20", -1)`: every byte `+` is replaced
by the three bytes `%20`. -/
def replacePlus (s : List UInt8) : List UInt8 :=
  s.flatMap fun c => if c = 43 then [37, 50, 48] else [c]

/-- Source: `util.URLEncode`. -/
def URLEncode (str : List UInt8) : List UInt8 := replacePlus (QueryEscape str)

/-- The body of the loop of `ToCanonicalQueryString` for an entry with a non-empty
key: `query = URLEncode(key) + "="`, and the encoded value is appended when the
value is not empty. -/
def queryToken (key value : List UInt8) : List UInt8 :=
  let query := URLEncode key ++ [61]
  if value ≠ [] then query ++ URLEncode value else query

/-- The strings `ToCanonicalQueryString` collects in `encodedQueryStrings`: one per
entry with a non-empty key, in the order of iteration. -/
def encodedQueryStrings : List (List UInt8 × List UInt8) → List (List UInt8)
  | [] => []
  | (key, value) :: rest =>
    if key ≠ [] then queryToken key value :: encodedQueryStrings rest
    else encodedQueryStrings rest

/-- Go's `a < b` on strings: the bytewise lexicographic order. -/
def stringLess : List UInt8 → List UInt8 → Bool
  | [], [] => false
  | [], _ :: _ => true
  | _ :: _, [] => false
  | a :: as, b :: bs =>
    if a.toNat < b.toNat then true
    else if b.toNat < a.toNat then false
    else stringLess as bs

/-- Go's `a <= b` on strings, that is, not `b < a`. -/
def stringLE (a b : List UInt8) : Prop := stringLess b a = false

instance stringLE.decidable : DecidableRel stringLE :=
  fun a b => inferInstanceAs (Decidable (stringLess b a = false))

/-- The Go call `sort.Strings`: the list in increasing order. The order on strings
is total and antisymmetric, so the sorted list does not depend on the sorting
algorithm; here it is computed by insertion. -/
def sortStrings (l : List (List UInt8)) : List (List UInt8) := l.insertionSort stringLE

/-- The Go call `strings.Join(elems, "&")`. -/
def joinAmpersand (elems : List (List UInt8)) : List UInt8 := [38].intercalate elems

/-- Source: `util.ToCanonicalQueryString`. -/
def ToCanonicalQueryString (params : Option (List (List UInt8 × List UInt8))) : List UInt8 :=
  match params with
  | none => []
  | some entries => joinAmpersand (sortStrings (encodedQueryStrings entries))

/-- The Go call `strings.Split(s, "&")`. -/
def splitAmpersand (s : List UInt8) : List (List UInt8) := s.splitOn 38


/-- The entries of a map that `ToCanonicalQueryString` encodes: those with a
non-empty key. -/
def nonEmptyKeyEntries (entries : List (List UInt8 × List UInt8)) :
    List (List UInt8 × List UInt8) :=
  entries.filter fun entry => entry.1 ≠ []


/-! ## URLs (`sgcloud-sdk-go/util/util.go`) -/

/-- The class `[[:alpha:]]` of Go's `regexp`: the ASCII letters. -/
def isAlpha (c : UInt8) : Bool :=
  decide ((65 ≤ c.toNat ∧ c.toNat ≤ 90) ∨ (97 ≤ c.toNat ∧ c.toNat ≤ 122))

/-- The rest of a match of `^[[:alpha:]]+:` once a first letter has been read: any
number of letters and then the byte `:`. -/
def matchAlphasColon : List UInt8 → Bool
  | [] => false
  | c :: rest =>
    if c = 58 then true
    else if isAlpha c then matchAlphasColon rest
    else false

/-- The Go call `regexp.MatchString("^[[:alpha:]]+:", host)`: the string begins
with one or more ASCII letters followed by `:`. -/
def matchSchemeRegexp (host : List UInt8) : Bool :=
  match host with
  | [] => false
  | c :: rest => isAlpha c && matchAlphasColon rest

/-- Source: `util.HostToURL`. -/
def HostToURL (host protocol : List UInt8) : List UInt8 :=
  if matchSchemeRegexp host then host
  else
    let protocol := if protocol = [] then goString "http" else protocol
    protocol ++ goString "://" ++ host

/-- The Go call `strings.Trim(s, " ")`: the string without its leading and
trailing spaces. -/
def trimSpaces (s : List UInt8) : List UInt8 :=
  ((s.dropWhile fun c => c = 32).reverse.dropWhile fun c => c = 32).reverse

/-- Source: `util.GetURL`. A leading `/` of the path is dropped
(`strings.Index(uriPath, "/") == 0`), and the query, when there is one, follows
a `?`. -/
def GetURL (protocol host uriPath : List UInt8)
    (params : Option (List (List UInt8 × List UInt8))) : List UInt8 :=
  let uriPath := if uriPath.head? = some 47 then uriPath.tail else uriPath
  let query := trimSpaces (ToCanonicalQueryString params)
  if query = [] then HostToURL host protocol ++ [47] ++ uriPath
  else HostToURL host protocol ++ [47] ++ uriPath ++ [63] ++ query

/-! ## Building the node groups (`sgcloud_cloud_provider.go`) -/

/-- The fields of `dynamic.NodeGroupSpec` that `buildAsgFromSpec` reads. -/
structure NodeGroupSpec where
  Name : String
  MinSize : Int
  MaxSize : Int
  deriving DecidableEq, Repr

/-- Modelled from the spec: the function `dynamic.SpecFromString` is not among the
sources. By the spec a group is "created once at startup from static
configuration", has "`minSize`, `maxSize` (integers, `minSize ≤ maxSize`, both
≥ 0)", and a "malformed static config" is a configuration error, "fatal at
startup". The text format of a spec is not described there: `parse` stands for the
reading of the three fields, and a spec that violates the bounds is rejected. -/
def SpecFromString (parse : String → Except GoError NodeGroupSpec) (specStr : String) :
    Except GoError NodeGroupSpec :=
  match parse specStr with
  | .error err => .error err
  | .ok spec =>
    if spec.MinSize < 0 then .error (.errorString "min size must be >= 0")
    else if spec.MaxSize < spec.MinSize then
      .error (.errorString "max size must be greater or equal to min size")
    else .ok spec

/-- Source: `buildAsg`. The manager becomes the back pointer of the group, which
the embedding passes to the methods as an argument. -/
def buildAsg (_manager : sgcloudManager) (minSize maxSize : Int) (name : String) :
    AutoScalingGroup :=
  { groupID := name, minSize := minSize, maxSize := maxSize }

/-- Source: `buildAsgFromSpec`. -/
def buildAsgFromSpec (parse : String → Except GoError NodeGroupSpec) (specStr : String)
    (manager : sgcloudManager) : Except GoError AutoScalingGroup :=
  match SpecFromString parse specStr with
  | .error err => .error (.errorString ("failed to parse node group spec: " ++ err.Error))
  | .ok spec => .ok (buildAsg manager spec.MinSize spec.MaxSize spec.Name)

/-- The struct `sgcloudCloudProvider`: the manager and the groups it has
registered, in order. -/
structure sgcloudCloudProvider where
  manager : sgcloudManager
  autoScalingGroup : List AutoScalingGroup

/-- Source: `sgcloudCloudProvider.addAsg`: the group is appended to the list of
the provider and registered with the manager (`RegisterAsg` hands the same group
to the cache, whose source is not among the files). -/
def sgcloudCloudProvider.addAsg (sg : sgcloudCloudProvider) (asg : AutoScalingGroup) :
    sgcloudCloudProvider :=
  { sg with autoScalingGroup := sg.autoScalingGroup ++ [asg] }

/-- Source: `sgcloudCloudProvider.addNodeGroup`: the provider afterwards and the
error returned. -/
def sgcloudCloudProvider.addNodeGroup (parse : String → Except GoError NodeGroupSpec)
    (sg : sgcloudCloudProvider) (spec : String) : sgcloudCloudProvider × Option GoError :=
  match buildAsgFromSpec parse spec sg.manager with
  | .error err => (sg, some err)
  | .ok asg => (sg.addAsg asg, none)

/-- The loop of `buildStaticallyDiscoveringProvider` over the specs: the first
spec that cannot be added ends the construction with its error. -/
def sgcloudCloudProvider.addNodeGroups (parse : String → Except GoError NodeGroupSpec)
    (sg : sgcloudCloudProvider) : List String → Except GoError sgcloudCloudProvider
  | [] => .ok sg
  | spec :: rest =>
    match sg.addNodeGroup parse spec with
    | (_, some err) => .error err
    | (sg2, none) => sgcloudCloudProvider.addNodeGroups parse sg2 rest

/-- Source: `buildStaticallyDiscoveringProvider`. -/
def buildStaticallyDiscoveringProvider (parse : String → Except GoError NodeGroupSpec)
    (manager : sgcloudManager) (specs : List String) : Except GoError sgcloudCloudProvider :=
  sgcloudCloudProvider.addNodeGroups parse { manager := manager, autoScalingGroup := [] } specs

/-- The operations that can follow the construction of the provider: adding a
further group, `Refresh`, `Cleanup`, and the three methods of the group at a given
position that reach the remote service. -/
inductive ProviderOp where
  | addNodeGroup (spec : String)
  | refresh
  | cleanup
  | increaseSize (index : Nat) (delta : Int)
  | deleteNodes (index : Nat) (nodes : List Node)
  | decreaseTargetSize (index : Nat) (delta : Int)

/-- The provider after an operation. `Refresh` and `Cleanup` return nil and do
nothing else; the methods of a group return an error value and act on the remote
service only. None of these functions assigns to a field of the provider or of a
group, so they leave the provider and its groups as they are; only `addNodeGroup`
changes the provider. -/
def sgcloudCloudProvider.step (parse : String → Except GoError NodeGroupSpec)
    (sg : sgcloudCloudProvider) : ProviderOp → sgcloudCloudProvider
  | .addNodeGroup spec => (sg.addNodeGroup parse spec).1
  | .refresh => sg
  | .cleanup => sg
  | .increaseSize _ _ => sg
  | .deleteNodes _ _ => sg
  | .decreaseTargetSize _ _ => sg


/-! ## Concrete inputs

The groups, managers, transports and environments at which the statements below
are evaluated. -/

/-- A list of `n` instances `i-0`, `i-1`, ... -/
def exampleInstances (n : Nat) : List Instance :=
  (List.range n).map fun i => { Id := "i-" ++ toString i }

/-- A remote service that lists `n` instances and accepts every add and remove
call. -/
def exampleService (n : Nat) : sgcloudWrapper where
  getScalingInstancesByCluster := fun _ => .ok (exampleInstances n)
  IncreaseCapcityInstanceSize := fun _ => none
  RemoveInstances := fun _ => none

/-- The group `G1` with the given bounds. -/
def exampleGroup (minSize maxSize : Int) : AutoScalingGroup :=
  { groupID := "G1", minSize := minSize, maxSize := maxSize }

/-- A registry with the group `G1` at address 1 and a group `G2` at address 2: the
instance `b` resolves to `G2`, every other instance to `G1`. -/
def exampleCache (minSize maxSize : Int) : autoScalingGroupCache where
  heap := fun addr =>
    if addr = 1 then exampleGroup minSize maxSize
    else { groupID := "G2", minSize := 0, maxSize := 10 }
  FindForInstance := fun instanceId => if instanceId = "b" then .ok (some 2) else .ok (some 1)

/-- The manager of cluster `c1` over `exampleCache` and `exampleService n`. -/
def exampleManager (minSize maxSize : Int) (n : Nat) : sgcloudManager :=
  { cloudConfig := { ClusterID := "c1" }, asgCache := exampleCache minSize maxSize,
    service := exampleService n }

/-- Two nodes of the group `G1`. -/
def exampleNodes : List Node :=
  [{ Name := "n1", ProviderID := "sgcloud://i-1" }, { Name := "n2", ProviderID := "sgcloud://i-2" }]

/-- A transport that answers every attempt with HTTP 503. -/
def always503 : Nat → HttpOutcome := fun _ => .response { StatusCode := 503, Body := "busy" }

/-- A transport that answers every attempt with HTTP 200. -/
def always200 : Nat → HttpOutcome := fun _ => .response { StatusCode := 200, Body := "ok" }

/-- An environment in which every string is written between quotes without escapes
(right for strings of letters and digits), every URL is accepted and the endpoint
is a local one. -/
def exampleEnv : RequestEnv where
  jsonString := fun s => "\"" ++ s ++ "\""
  newRequestError := fun _ _ => none
  GetURL := fun objectKey => "http://127.0.0.1:11881" ++ objectKey

/-- A client configured with `NewDefaultRetryPolicy(maxErrorRetry, maxDelay)`. -/
def clientWith (maxErrorRetry : Int) (maxDelay : Int) : core.Client :=
  { RetryPolicy := some (NewDefaultRetryPolicy maxErrorRetry maxDelay) }


/-- A transport that answers 503 to the first two attempts and 200 afterwards. -/
def twice503Then200 : Nat → HttpOutcome := fun i =>
  if i < 2 then .response { StatusCode := 503, Body := "busy" }
  else .response { StatusCode := 200, Body := "ok" }

/-- A transport that answers every attempt with the given status. -/
def alwaysStatus (status : Int) : Nat → HttpOutcome :=
  fun _ => .response { StatusCode := status, Body := "body" }

/-- The map of Scenario D, `b -> 2` and `a -> 1 x`, visited in this order. -/
def scenarioD : List (List UInt8 × List UInt8) :=
  [(goString "b", goString "2"), (goString "a", goString "1 x")]

/-- The map of Scenario D visited in the other order. -/
def scenarioDSwapped : List (List UInt8 × List UInt8) :=
  [(goString "a", goString "1 x"), (goString "b", goString "2")]


/-- The one-entry map `a -> 1`. -/
def mapA1 : List (List UInt8 × List UInt8) := [(goString "a", goString "1")]

/-- The one-entry map `a -> 2`. -/
def mapA2 : List (List UInt8 × List UInt8) := [(goString "a", goString "2")]

/-- The map `a -> 1` with one more entry, under the empty key. -/
def mapA1EmptyKey : List (List UInt8 × List UInt8) :=
  [(goString "", goString "x"), (goString "a", goString "1")]


/-- A registry that knows no instance: every lookup answers nil without error. -/
def unknownCache : autoScalingGroupCache where
  heap := fun _ => exampleGroup 1 5
  FindForInstance := fun _ => .ok none

/-- A remote service whose remove call fails. -/
def failingRemoveService : sgcloudWrapper where
  getScalingInstancesByCluster := fun _ => .ok (exampleInstances 3)
  IncreaseCapcityInstanceSize := fun _ => none
  RemoveInstances := fun _ => some (.errorString "remove failed")

/-- The manager of cluster `c1` over the registry that knows no instance. -/
def unknownManager (service : sgcloudWrapper) : sgcloudManager :=
  { cloudConfig := { ClusterID := "c1" }, asgCache := unknownCache, service := service }

/-- A reader of specs that knows two texts: `1:5:G1` and `7:3:G2`. -/
def exampleParse : String → Except GoError NodeGroupSpec := fun specStr =>
  if specStr = "1:5:G1" then .ok { Name := "G1", MinSize := 1, MaxSize := 5 }
  else if specStr = "7:3:G2" then .ok { Name := "G2", MinSize := 7, MaxSize := 3 }
  else .error (.errorString ("wrong nodes configuration: " ++ specStr))

/-- The provider built over `exampleManager 1 5 3` from the one spec `1:5:G1`. -/
def exampleProvider : sgcloudCloudProvider :=
  { manager := exampleManager 1 5 3,
    autoScalingGroup := [{ groupID := "G1", minSize := 1, maxSize := 5 }] }

/-- A run of operations after the construction: a scale-up of the first group, a
refresh, an attempt to add the group `7:3:G2`, and a cleanup. -/
def exampleOps : List ProviderOp :=
  [.increaseSize 0 2, .refresh, .addNodeGroup "7:3:G2", .cleanup]


/-! ## Lemmas on machine integers and traces -/

/-- A value inside the 64-bit range is left unchanged by the wrap-around. -/
theorem wrapInt64_of_fits (x : Int) (hlo : -(2 ^ 63) ≤ x) (hhi : x ≤ maxInt64) :
    wrapInt64 x = x := by
  unfold wrapInt64
  unfold maxInt64 at hhi
  rw [Int.emod_eq_of_lt (by omega) (by omega)]
  omega

/-- The add calls of two traces run one after the other. -/
theorem addCalls_append (t u : List Event) : addCalls (t ++ u) = addCalls t ++ addCalls u := by
  induction t with
  | nil => rfl
  | cons e t ih => cases e <;> simp [addCalls, ih]

/-- The remove calls of two traces run one after the other. -/
theorem removeCalls_append (t u : List Event) :
    removeCalls (t ++ u) = removeCalls t ++ removeCalls u := by
  induction t with
  | nil => rfl
  | cons e t ih => cases e <;> simp [removeCalls, ih]

/-- The sleeps of two traces run one after the other. -/
theorem sleeps_append (t u : List Event) : sleeps (t ++ u) = sleeps t ++ sleeps u := by
  induction t with
  | nil => rfl
  | cons e t ih => cases e <;> simp [sleeps, ih]

/-! ## The same-group check of `DeleteInstances` -/

/-- The same-group loop only looks ids up: it removes nothing and never sleeps. -/
theorem removeCalls_checkSameAsg (m : sgcloudManager) (commonAsg : Option Nat)
    (ids : List String) :
    removeCalls (m.checkSameAsg commonAsg ids).2 = [] ∧
    sleeps (m.checkSameAsg commonAsg ids).2 = [] := by
  induction ids with
  | nil => simp [sgcloudManager.checkSameAsg, removeCalls, sleeps]
  | cons instanceId rest ih =>
    simp only [sgcloudManager.checkSameAsg]
    cases m.asgCache.FindForInstance instanceId with
    | error err => simp [removeCalls, sleeps]
    | ok asg =>
      by_cases h : asg = commonAsg
      · simp [h, removeCalls, sleeps, ih]
      · simp [h, removeCalls, sleeps]

/-- When the same-group loop succeeds, every id resolved to `commonAsg`. -/
theorem checkSameAsg_success (m : sgcloudManager) (commonAsg : Option Nat)
    (ids : List String) (h : (m.checkSameAsg commonAsg ids).1 = .success) :
    ∀ instanceId ∈ ids, m.asgCache.FindForInstance instanceId = .ok commonAsg := by
  induction ids with
  | nil => simp
  | cons instanceId rest ih =>
    simp only [sgcloudManager.checkSameAsg] at h
    cases hl : m.asgCache.FindForInstance instanceId with
    | error err => simp [hl] at h
    | ok asg =>
      by_cases hc : asg = commonAsg
      · simp [hl, hc] at h
        intro x hx
        rcases List.mem_cons.1 hx with rfl | hx
        · rw [hl, hc]
        · exact ih h x hx
      · simp [hl, hc] at h

/-- When every id resolves to `commonAsg`, the same-group loop succeeds. -/
theorem checkSameAsg_of_all (m : sgcloudManager) (commonAsg : Option Nat) (ids : List String)
    (hall : ∀ instanceId ∈ ids, m.asgCache.FindForInstance instanceId = .ok commonAsg) :
    (m.checkSameAsg commonAsg ids).1 = .success := by
  induction ids with
  | nil => rfl
  | cons x xs ih =>
    simp only [sgcloudManager.checkSameAsg, hall x (List.mem_cons_self _ _)]
    simpa using ih (fun y hy => hall y (List.mem_cons_of_mem _ hy))

/-- The same-group loop reads no field through a pointer. -/
theorem checkSameAsg_not_nilDeref (m : sgcloudManager) (commonAsg : Option Nat)
    (ids : List String) : (m.checkSameAsg commonAsg ids).1 ≠ .nilDeref := by
  induction ids with
  | nil => simp [sgcloudManager.checkSameAsg]
  | cons instanceId rest ih =>
    simp only [sgcloudManager.checkSameAsg]
    cases m.asgCache.FindForInstance instanceId with
    | error err => simp
    | ok asg =>
      by_cases h : asg = commonAsg
      · simpa [h] using ih
      · simp [h]

/-! ## The retry policy and the transport -/

/-- Up to 34 attempts the two 64-bit products of the backoff do not wrap. -/
theorem backoffDuration_exact (n : Int) (h0 : 0 ≤ n) (h34 : n ≤ 34) :
    backoffDuration n = 300 * Millisecond * 2 ^ n.toNat := by
  obtain ⟨k, rfl⟩ := Int.eq_ofNat_of_zero_le h0
  have hk : k ≤ 34 := by omega
  interval_cases k <;> decide

/-- Up to 34 attempts the backoff is positive. -/
theorem backoffDuration_pos (n : Int) (h0 : 0 ≤ n) (h34 : n ≤ 34) : 0 < backoffDuration n := by
  rw [backoffDuration_exact n h0 h34]
  have : (0 : Int) < 2 ^ n.toNat := by positivity
  have hm : (0 : Int) < 300 * Millisecond := by decide
  exact Int.mul_pos hm this

/-- Every body the loop of `SendRequest` hands to the transport is `buf`. -/
theorem httpSends_sendLoop (policy : DefaultRetryPolicy) (Do : Nat → HttpOutcome) (buf : String)
    (fuel i : Nat) (r : SendResult) (h : core.Client.sendLoop policy Do buf fuel i = some r) :
    ∀ body ∈ httpSends r.trace, body = buf := by
  induction fuel generalizing i r with
  | zero => simp [core.Client.sendLoop] at h
  | succ fuel ih =>
    simp only [core.Client.sendLoop] at h
    split at h
    · split at h
      · injection h with h
        subst h
        simp [httpSends]
      · cases hrec : core.Client.sendLoop policy Do buf fuel (i + 1) with
        | none => simp [hrec] at h
        | some r2 =>
          simp [hrec] at h
          subst h
          intro body hb
          simp [httpSends] at hb
          rcases hb with rfl | hb
          · rfl
          · exact ih (i + 1) r2 hrec body hb
    · split at h
      · split at h
        · injection h with h
          subst h
          simp [httpSends]
        · cases hrec : core.Client.sendLoop policy Do buf fuel (i + 1) with
          | none => simp [hrec] at h
          | some r2 =>
            simp [hrec] at h
            subst h
            intro body hb
            simp [httpSends] at hb
            rcases hb with rfl | hb
            · rfl
            · exact ih (i + 1) r2 hrec body hb
      · injection h with h
        subst h
        simp [httpSends]

/-- The loop of `SendRequest` against a transport that always answers 503, for a
policy of at most 34 retries and a positive maximal delay: started at iteration
`i` with `j` retries left, it sends `j + 1` times and returns the 503 error. -/
theorem sendLoop_always503 (policy : DefaultRetryPolicy) (Do : Nat → HttpOutcome) (buf : String)
    (k : Nat) (hk : policy.MaxErrorRetry = k) (h34 : k ≤ 34) (hdelay : 0 < policy.MaxDelay)
    (h503 : ∀ i, ∃ body, Do i = .response { StatusCode := 503, Body := body }) :
    ∀ (j i fuel : Nat), i + j = k → j < fuel →
      ∃ r, core.Client.sendLoop policy Do buf fuel i = some r ∧
        (httpSends r.trace).length = j + 1 ∧
        ∃ e, r.err = some (.bceError e) ∧ e.StatusCode = 503 := by
  intro j
  induction j with
  | zero =>
    intro i fuel hij hfuel
    obtain ⟨f, rfl⟩ : ∃ f, fuel = f + 1 := ⟨fuel - 1, by omega⟩
    obtain ⟨body, hDo⟩ := h503 i
    have hw : wrapInt64 ((i : Int) + 1) = (i : Int) + 1 :=
      wrapInt64_of_fits _ (by omega) (by unfold maxInt64; omega)
    have hstop : policy.GetDelayBeforeNextRetry
        (buildError { StatusCode := 503, Body := body }) ((i : Int) + 1) = -1 := by
      have hgt : (i : Int) + 1 > policy.GetMaxErrorRetry := by
        simp only [DefaultRetryPolicy.GetMaxErrorRetry, hk]; omega
      simp [DefaultRetryPolicy.GetDelayBeforeNextRetry, DefaultRetryPolicy.shouldRetry, hgt]
    have h400 : (503 : Int) ≥ StatusBadRequest := by decide
    refine ⟨{ response := some { StatusCode := 503, Body := body },
              err := some (buildError { StatusCode := 503, Body := body }),
              trace := [.httpSend buf] }, ?_, ?_, ?_⟩
    · simp [core.Client.sendLoop, hDo, h400, hw, hstop]
    · simp [httpSends]
    · exact ⟨{ StatusCode := 503, Body := body }, rfl, rfl⟩
  | succ j ih =>
    intro i fuel hij hfuel
    obtain ⟨f, rfl⟩ : ∃ f, fuel = f + 1 := ⟨fuel - 1, by omega⟩
    obtain ⟨body, hDo⟩ := h503 i
    have hw : wrapInt64 ((i : Int) + 1) = (i : Int) + 1 :=
      wrapInt64_of_fits _ (by omega) (by unfold maxInt64; omega)
    have hle : ¬ ((i : Int) + 1 > policy.GetMaxErrorRetry) := by
      simp only [DefaultRetryPolicy.GetMaxErrorRetry, hk]; omega
    have hpos := backoffDuration_pos ((i : Int) + 1) (by omega) (by omega)
    have hgo : ¬ policy.GetDelayBeforeNextRetry
        (buildError { StatusCode := 503, Body := body }) ((i : Int) + 1) ≤ 0 := by
      simp only [DefaultRetryPolicy.GetDelayBeforeNextRetry, DefaultRetryPolicy.shouldRetry, hle,
        buildError, StatusInternalServerError, StatusServiceUnavailable,
        DefaultRetryPolicy.GetMaxDelay]
      simp only [if_false, if_true, Bool.not_true, Bool.false_eq_true]
      norm_num
      split <;> omega
    have h400 : (503 : Int) ≥ StatusBadRequest := by decide
    obtain ⟨r, hr, hlen, herr⟩ := ih (i + 1) f (by omega) (by omega)
    refine ⟨{ r with trace := Event.httpSend buf :: Event.sleep (policy.GetDelayBeforeNextRetry
        (buildError { StatusCode := 503, Body := body }) ((i : Int) + 1)) :: r.trace }, ?_, ?_, ?_⟩
    · simp [core.Client.sendLoop, hDo, h400, hw, hgo, hr]
    · simp [httpSends, hlen]
    · exact herr

/-! ## C1: the size guard of `IncreaseSize` -/

/-- Claim C1, evaluated where it fails. Group `G1` with bounds 1 and 5, observed
size 1, delta `2^63 - 1` (the largest Go `int`, hence positive): the sum
`1 + delta` exceeds the maximum 5, yet `IncreaseSize` returns no error and issues
one add-instances call with that delta, because the 64-bit sum `int(size)+delta`
wraps around to a negative number and passes the guard. -/
theorem IncreaseSize_sum_wraps_past_maxSize :
    (0 : Int) < 2 ^ 63 - 1 ∧ (2 : Int) ^ 63 - 1 ≤ maxInt64 ∧
    (exampleManager 1 5 1).service.getScalingInstancesByCluster "c1" =
      .ok (exampleInstances 1) ∧
    (exampleGroup 1 5).maxSize < ((exampleInstances 1).length : Int) + (2 ^ 63 - 1) ∧
    wrapInt64 (((exampleInstances 1).length : Int) + (2 ^ 63 - 1)) = -(2 ^ 63) ∧
    (exampleGroup 1 5).IncreaseSize (exampleManager 1 5 1) (2 ^ 63 - 1) =
      (.success, [.listNodes "c1", .addInstances { ClusterID := "c1", Delta := 2 ^ 63 - 1 }]) :=
  ⟨by decide, by decide, rfl, by decide, by decide, by decide⟩

/-- The size guard of `IncreaseSize` where the 64-bit sum does not wrap. For every
group, every list of instances returned by a successful size query (current size
`s`, its length) and every delta > 0 with `s + delta` at most the largest 64-bit
integer: when `s + delta > maxSize` the call returns an error and issues no
add-instances call, and otherwise it issues exactly one add-instances call, whose
`Delta` is `delta`. -/
theorem IncreaseSize_guard (asg : AutoScalingGroup) (m : sgcloudManager)
    (instances : List Instance) (delta : Int)
    (hsize : m.service.getScalingInstancesByCluster m.cloudConfig.ClusterID = .ok instances)
    (hpos : 0 < delta) (hfit : (instances.length : Int) + delta ≤ maxInt64) :
    (asg.maxSize < (instances.length : Int) + delta →
        (asg.IncreaseSize m delta).1.isFailure = true ∧
        addCalls (asg.IncreaseSize m delta).2 = []) ∧
    ((instances.length : Int) + delta ≤ asg.maxSize →
        addCalls (asg.IncreaseSize m delta).2 =
          [{ ClusterID := m.cloudConfig.ClusterID, Delta := delta }]) := by
  have hw : wrapInt64 ((instances.length : Int) + delta) = (instances.length : Int) + delta :=
    wrapInt64_of_fits _ (by omega) hfit
  have hd : ¬ delta ≤ 0 := by omega
  constructor
  · intro hgt
    simp [AutoScalingGroup.IncreaseSize, sgcloudManager.GetAsgSize, hsize, hd, hw,
      AutoScalingGroup.MaxSize, hgt, CallResult.isFailure, addCalls]
  · intro hle
    have hngt : ¬ asg.maxSize < (instances.length : Int) + delta := by omega
    simp only [AutoScalingGroup.IncreaseSize, sgcloudManager.GetAsgSize, hsize, hd, hw,
      AutoScalingGroup.MaxSize, hngt, if_false, Int.ofNat_eq_coe, gt_iff_lt]
    simp only [sgcloudManager.AddInstances]
    cases m.service.IncreaseCapcityInstanceSize
        { ClusterID := m.cloudConfig.ClusterID, Delta := delta } <;> simp [addCalls]

/-- The size guard at the two scenarios of the spec: group with bounds 1 and 5,
current size 2. Delta 3 is accepted with one add call of delta 3; delta 4 is
rejected with no add call. -/
theorem IncreaseSize_guard_witness :
    addCalls ((exampleGroup 1 5).IncreaseSize (exampleManager 1 5 2) 3).2 =
        [{ ClusterID := "c1", Delta := 3 }] ∧
    ((exampleGroup 1 5).IncreaseSize (exampleManager 1 5 2) 4).1.isFailure = true ∧
    addCalls ((exampleGroup 1 5).IncreaseSize (exampleManager 1 5 2) 4).2 = [] :=
  ⟨(IncreaseSize_guard (exampleGroup 1 5) (exampleManager 1 5 2) (exampleInstances 2) 3
      rfl (by decide) (by decide)).2 (by decide),
   (IncreaseSize_guard (exampleGroup 1 5) (exampleManager 1 5 2) (exampleInstances 2) 4
      rfl (by decide) (by decide)).1 (by decide)⟩

/-! ## C2: the minimum-size guard of the deletion path -/

/-- Claim C2 fails as stated. Group `G1` with bounds 2 and 5, observed size 3, two
nodes of the group: the resulting size 3 - 2 = 1 is below the minimum 2, yet
`DeleteNodes` succeeds and issues a remove-instances call. -/
theorem DeleteNodes_below_min_counterexample :
    (exampleManager 2 5 3).service.getScalingInstancesByCluster "c1" =
      .ok (exampleInstances 3) ∧
    ((exampleInstances 3).length : Int) - (exampleNodes.length : Int) <
      (exampleGroup 2 5).minSize ∧
    (exampleGroup 2 5).DeleteNodes (exampleManager 2 5 3) exampleNodes =
      (.success,
       [.listNodes "c1", .findForInstance "i-1", .findForInstance "i-2", .findForInstance "i-1",
        .findForInstance "i-1", .findForInstance "i-2",
        .removeInstances { ClusterID := "c1", NodeInfos := ["", "", "i-1", "i-2"] },
        .sleep 200000000]) :=
  ⟨rfl, by decide, by decide⟩

/-- Claim C2 as amended. For every group, every list of nodes and every current
size `s` observed by a successful size query: when `s` is at or below the minimum
size of the group, the deletion path (`DeleteNodes` followed by `DeleteInstances`)
returns an error and issues no remove-instances call. The guard compares the
current size, not the size after the deletion, with `minSize`. -/
theorem DeleteNodes_min_guard (asg : AutoScalingGroup) (m : sgcloudManager) (nodes : List Node)
    (instances : List Instance)
    (hsize : m.service.getScalingInstancesByCluster m.cloudConfig.ClusterID = .ok instances)
    (hmin : (instances.length : Int) ≤ asg.minSize) :
    (asg.DeleteNodes m nodes).1.isFailure = true ∧
    removeCalls (asg.DeleteNodes m nodes).2 = [] := by
  have hle : (instances.length : Int) ≤ asg.MinSize := hmin
  simp [AutoScalingGroup.DeleteNodes, sgcloudManager.GetAsgSize, hsize, hle,
    CallResult.isFailure, removeCalls]

/-- Claim C2 as amended, at a concrete input: group with bounds 3 and 5, observed
size 3, two nodes of the group. The call fails and no remove call is issued. -/
theorem DeleteNodes_min_guard_witness :
    ((exampleInstances 3).length : Int) ≤ (exampleGroup 3 5).minSize ∧
    ((exampleGroup 3 5).DeleteNodes (exampleManager 3 5 3) exampleNodes).1.isFailure = true ∧
    removeCalls ((exampleGroup 3 5).DeleteNodes (exampleManager 3 5 3) exampleNodes).2 = [] :=
  ⟨by decide,
   DeleteNodes_min_guard (exampleGroup 3 5) (exampleManager 3 5 3) exampleNodes
     (exampleInstances 3) rfl (by decide)⟩

/-! ## C3: ids of different groups -/

/-- Claim C3. For every registry lookup and every list of instance ids that holds
two ids `a` and `b` resolving, without lookup error, to different groups:
`DeleteInstances` returns an error, issues no remove-instances call and does not
sleep. -/
theorem DeleteInstances_mixed_groups_rejected (m : sgcloudManager) (instanceIds : List String)
    (a b : String) (ga gb : Option Nat) (ha : a ∈ instanceIds) (hb : b ∈ instanceIds)
    (hga : m.asgCache.FindForInstance a = .ok ga) (hgb : m.asgCache.FindForInstance b = .ok gb)
    (hne : ga ≠ gb) :
    (m.DeleteInstances instanceIds).1.isFailure = true ∧
    removeCalls (m.DeleteInstances instanceIds).2 = [] ∧
    sleeps (m.DeleteInstances instanceIds).2 = [] := by
  cases instanceIds with
  | nil => simp at ha
  | cons first rest =>
    simp only [sgcloudManager.DeleteInstances]
    cases hf : m.asgCache.FindForInstance first with
    | error err => simp [CallResult.isFailure, removeCalls, sleeps]
    | ok commonAsg =>
      have htr := removeCalls_checkSameAsg m commonAsg (first :: rest)
      have hnd := checkSameAsg_not_nilDeref m commonAsg (first :: rest)
      have hall := checkSameAsg_success m commonAsg (first :: rest)
      rcases hc : m.checkSameAsg commonAsg (first :: rest) with ⟨r, t⟩
      rw [hc] at htr hnd hall
      simp only [hc]
      cases r with
      | success =>
        have h1 := hall rfl a ha
        have h2 := hall rfl b hb
        rw [hga] at h1
        rw [hgb] at h2
        injection h1 with h1
        injection h2 with h2
        exact absurd (h1.trans h2.symm) hne
      | failure err => simpa [CallResult.isFailure, removeCalls, sleeps] using htr
      | nilDeref => exact absurd rfl hnd

/-- Claim C3 at the scenario of the spec: the ids `a` and `b`, where `a` resolves
to the group at address 1 and `b` to the group at address 2. -/
theorem DeleteInstances_mixed_groups_rejected_witness :
    ((exampleManager 1 5 3).DeleteInstances ["a", "b"]).1.isFailure = true ∧
    removeCalls ((exampleManager 1 5 3).DeleteInstances ["a", "b"]).2 = [] ∧
    sleeps ((exampleManager 1 5 3).DeleteInstances ["a", "b"]).2 = [] :=
  DeleteInstances_mixed_groups_rejected (exampleManager 1 5 3) ["a", "b"] "a" "b" (some 1) (some 2)
    (by decide) (by decide) rfl rfl (by decide)

/-! ## C4: the node ids of the remove call -/

/-- Claim C4, evaluated where it fails. The single id `a`, which resolves to the
group at address 1: the remove-instances call of `DeleteInstances` carries the
node-id list `["", "a"]`, an empty string before the id, and so not the list
`["a"]` of the given ids. -/
theorem DeleteInstances_nodeinfos_spurious_entries :
    (exampleManager 1 5 3).asgCache.FindForInstance "a" = .ok (some 1) ∧
    (exampleManager 1 5 3).DeleteInstances ["a"] =
      (.success,
       [.findForInstance "a", .findForInstance "a",
        .removeInstances { ClusterID := "c1", NodeInfos := ["", "a"] }, .sleep 200000000]) ∧
    removeCalls ((exampleManager 1 5 3).DeleteInstances ["a"]).2 ≠
      [{ ClusterID := "c1", NodeInfos := ["a"] }] :=
  ⟨rfl, by decide, by decide⟩

/-- The node ids of the remove call in general. For every non-empty list of
instance ids that all resolve to the same group, `DeleteInstances` issues exactly
one remove-instances call, and its node-id list is as many empty strings as there
are ids, followed by the ids in order. -/
theorem DeleteInstances_nodeinfos (m : sgcloudManager) (instanceIds : List String)
    (commonAsg : Option Nat) (hne : instanceIds ≠ [])
    (hall : ∀ instanceId ∈ instanceIds, m.asgCache.FindForInstance instanceId = .ok commonAsg) :
    removeCalls (m.DeleteInstances instanceIds).2 =
      [{ ClusterID := m.cloudConfig.ClusterID,
         NodeInfos := List.replicate instanceIds.length "" ++ instanceIds }] := by
  cases instanceIds with
  | nil => exact absurd rfl hne
  | cons first rest =>
    have htr := removeCalls_checkSameAsg m commonAsg (first :: rest)
    have hs := checkSameAsg_of_all m commonAsg (first :: rest) hall
    simp only [sgcloudManager.DeleteInstances, hall first (List.mem_cons_self _ _)]
    rcases hc : m.checkSameAsg commonAsg (first :: rest) with ⟨r, t⟩
    rw [hc] at htr hs
    simp only at hs
    subst hs
    simp only []
    cases m.service.RemoveInstances
        { ClusterID := m.cloudConfig.ClusterID,
          NodeInfos := List.replicate (first :: rest).length "" ++ (first :: rest) } with
    | none => simp [removeCalls, removeCalls_append, htr.1]
    | some err => cases commonAsg <;> simp [removeCalls, removeCalls_append, htr.1]

/-- The node ids of the remove call for the two ids `x` and `y` of one group: two
empty strings, then `x` and `y`. -/
theorem DeleteInstances_nodeinfos_witness :
    removeCalls ((exampleManager 1 5 3).DeleteInstances ["x", "y"]).2 =
      [{ ClusterID := "c1", NodeInfos := ["", "", "x", "y"] }] :=
  DeleteInstances_nodeinfos (exampleManager 1 5 3) ["x", "y"] (some 1) (by decide)
    (by
      intro instanceId hmem
      simp only [List.mem_cons, List.mem_singleton, List.not_mem_nil, or_false] at hmem
      rcases hmem with rfl | rfl <;> rfl)


/-! ## C5: the body of the add and remove requests -/

/-- Claim C5, evaluated where it fails. For the args `clusterId = c1, delta = 2` the
one request `AddInstance` sends has the two-byte body of an empty JSON object,
while the JSON encoding of the args is the object with `clusterId` and `delta`;
likewise `RemoveInstance` with the node ids `a` and `b` sends the empty object and
not the object with `clusterId` and `nodeId`. `NewRequest` marshals the
`*bytes.Buffer` that wraps the encoded args, not the args. -/
theorem AddInstance_RemoveInstance_send_empty_object :
    (cc.Client.mk (clientWith 3 (20 * Second))).AddInstance exampleEnv always200
        { ClusterID := "c1", Delta := 2 } 10 = some (.success, [.httpSend "\x7b\x7d"]) ∧
    jsonMarshal exampleEnv (.addInstanceArgs { ClusterID := "c1", Delta := 2 }) =
        "\x7b\"clusterId\":\"c1\",\"delta\":2\x7d" ∧
    (cc.Client.mk (clientWith 3 (20 * Second))).RemoveInstance exampleEnv always200
        { ClusterID := "c1", NodeInfos := ["a", "b"] } 10 =
        some (.success, [.httpSend "\x7b\x7d"]) ∧
    jsonMarshal exampleEnv (.removeInstanceArgs { ClusterID := "c1", NodeInfos := ["a", "b"] }) =
        "\x7b\"clusterId\":\"c1\",\"nodeId\":[\"a\",\"b\"]\x7d" := by
  decide

/-- The body of the add request in general. For every client, environment,
transport and `AddInstanceArgs`: every request `AddInstance` hands to the transport
(the first send and every retry) has the empty JSON object as its body, whatever
the args are. -/
theorem AddInstance_body (c : cc.Client) (env : RequestEnv) (Do : Nat → HttpOutcome)
    (args : AddInstanceArgs) (fuel : Nat) (r : CallResult × List Event)
    (h : c.AddInstance env Do args fuel = some r) :
    ∀ body ∈ httpSends r.2, body = "\x7b\x7d" := by
  simp only [cc.Client.AddInstance, core.NewRequest, jsonMarshal] at h
  cases hn : env.newRequestError "POST".toUpper (env.GetURL "/cluster/nodes/add") with
  | some err =>
    simp [hn] at h
    subst h
    simp [httpSends]
  | none =>
    simp only [hn, core.Client.SendRequest] at h
    cases hs : core.Client.sendLoop c.Client.effectivePolicy Do "\x7b\x7d" fuel 0 with
    | none => simp [hs] at h
    | some sr =>
      simp [hs] at h
      subst h
      have := httpSends_sendLoop _ _ _ _ _ sr hs
      unfold SendResult.toCallResult
      cases sr.err <;> simpa using this

/-- The body of the add request for the args `clusterId = c1, delta = 2` against a
transport that answers 200. -/
theorem AddInstance_body_witness :
    (cc.Client.mk (clientWith 3 (20 * Second))).AddInstance exampleEnv always200
        { ClusterID := "c1", Delta := 2 } 10 = some (.success, [.httpSend "\x7b\x7d"]) ∧
    ∀ body ∈ httpSends [Event.httpSend "\x7b\x7d"], body = "\x7b\x7d" :=
  ⟨by decide,
   AddInstance_body (cc.Client.mk (clientWith 3 (20 * Second))) exampleEnv always200
     { ClusterID := "c1", Delta := 2 } 10 (.success, [.httpSend "\x7b\x7d"]) (by decide)⟩

/-- The body of the remove request in general. For every client, environment,
transport and `RemoveInstanceArgs`: every request `RemoveInstance` hands to the
transport has the empty JSON object as its body, whatever the args are. -/
theorem RemoveInstance_body (c : cc.Client) (env : RequestEnv) (Do : Nat → HttpOutcome)
    (args : RemoveInstanceArgs) (fuel : Nat) (r : CallResult × List Event)
    (h : c.RemoveInstance env Do args fuel = some r) :
    ∀ body ∈ httpSends r.2, body = "\x7b\x7d" := by
  simp only [cc.Client.RemoveInstance, core.NewRequest, jsonMarshal] at h
  cases hn : env.newRequestError "POST".toUpper (env.GetURL "/cluster/nodes/delete") with
  | some err =>
    simp [hn] at h
    subst h
    simp [httpSends]
  | none =>
    simp only [hn, core.Client.SendRequest] at h
    cases hs : core.Client.sendLoop c.Client.effectivePolicy Do "\x7b\x7d" fuel 0 with
    | none => simp [hs] at h
    | some sr =>
      simp [hs] at h
      subst h
      have := httpSends_sendLoop _ _ _ _ _ sr hs
      unfold SendResult.toCallResult
      cases sr.err <;> simpa using this

/-- The body of the remove request for the node id `a` against a transport that
answers 200. -/
theorem RemoveInstance_body_witness :
    (cc.Client.mk (clientWith 3 (20 * Second))).RemoveInstance exampleEnv always200
        { ClusterID := "c1", NodeInfos := ["a"] } 10 = some (.success, [.httpSend "\x7b\x7d"]) ∧
    ∀ body ∈ httpSends [Event.httpSend "\x7b\x7d"], body = "\x7b\x7d" :=
  ⟨by decide,
   RemoveInstance_body (cc.Client.mk (clientWith 3 (20 * Second))) exampleEnv always200
     { ClusterID := "c1", NodeInfos := ["a"] } 10 (.success, [.httpSend "\x7b\x7d"]) (by decide)⟩

/-! ## C6: retry exhaustion against a transport that always answers 503 -/

/-- Claim C6, evaluated where it fails. With `DefaultRetryPolicy(35, 20s)`, so
`maxRetries = 35 ≥ 0` and `maxDelay > 0`, and a transport that answers every
attempt with 503, `SendRequest` sends 35 times in total, not 36, and returns the 503
error: the delay computed after the 35th send wraps around to a negative
duration, which the loop reads as the signal to stop. -/
theorem SendRequest_always503_stops_at_35 :
    (0 : Int) ≤ 35 ∧ (0 : Int) < 20 * Second ∧
    ((clientWith 35 (20 * Second)).SendRequest always503
        { Method := "POST", URL := "u", Body := some "x" } 100).map
      (fun r => ((httpSends r.trace).length, r.err)) =
      some (35, some (.bceError { StatusCode := 503, Body := "busy" })) := by
  decide

/-- Retry exhaustion where the backoff does not wrap. For every `maxRetries` from 0
to 34 and every `maxDelay > 0`, when the transport answers every attempt with HTTP
503, `SendRequest` with `DefaultRetryPolicy(maxRetries, maxDelay)` returns (given
fuel for `maxRetries + 1` iterations), has sent the request exactly
`maxRetries + 1` times, and returns an API error of status 503. -/
theorem SendRequest_always503 (c : core.Client) (maxRetries : Nat) (maxDelay : Int)
    (Do : Nat → HttpOutcome) (req : Request) (fuel : Nat)
    (hc : c.RetryPolicy = some (NewDefaultRetryPolicy maxRetries maxDelay))
    (h34 : maxRetries ≤ 34) (hdelay : 0 < maxDelay)
    (h503 : ∀ i, ∃ body, Do i = .response { StatusCode := 503, Body := body })
    (hfuel : maxRetries < fuel) :
    ∃ r, c.SendRequest Do req fuel = some r ∧
      (httpSends r.trace).length = maxRetries + 1 ∧
      ∃ e, r.err = some (.bceError e) ∧ e.StatusCode = 503 := by
  have hp : c.effectivePolicy = NewDefaultRetryPolicy maxRetries maxDelay := by
    simp [core.Client.effectivePolicy, hc]
  simp only [core.Client.SendRequest, hp]
  exact sendLoop_always503 (NewDefaultRetryPolicy maxRetries maxDelay) Do _ maxRetries rfl h34
    hdelay h503 maxRetries 0 fuel (by omega) hfuel

/-- Retry exhaustion for `DefaultRetryPolicy(3, 20s)`: four sends, then the 503
error. -/
theorem SendRequest_always503_witness :
    ∃ r, (clientWith 3 (20 * Second)).SendRequest always503
        { Method := "POST", URL := "u", Body := some "x" } 4 = some r ∧
      (httpSends r.trace).length = 3 + 1 ∧
      ∃ e, r.err = some (.bceError e) ∧ e.StatusCode = 503 :=
  SendRequest_always503 (clientWith 3 (20 * Second)) 3 (20 * Second) always503
    { Method := "POST", URL := "u", Body := some "x" } 4 rfl (by decide) (by decide)
    (fun _ => ⟨"busy", rfl⟩) (by decide)

/-! ## C7: status 502 -/

/-- Claim C7 fails as stated. With `DefaultRetryPolicy(3, 20s)` and attempt count
0, an API error of status 502 is not retryable: `shouldRetry` is false and
`GetDelayBeforeNextRetry` returns the stop value -1, while statuses 503 and 500 are
retryable at the same attempt count. -/
theorem shouldRetry_502_counterexample :
    (0 : Int) ≤ (NewDefaultRetryPolicy 3 (20 * Second)).MaxErrorRetry ∧
    (NewDefaultRetryPolicy 3 (20 * Second)).shouldRetry
        (.bceError { StatusCode := 502, Body := "" }) 0 = false ∧
    (NewDefaultRetryPolicy 3 (20 * Second)).GetDelayBeforeNextRetry
        (.bceError { StatusCode := 502, Body := "" }) 0 = -1 ∧
    (NewDefaultRetryPolicy 3 (20 * Second)).shouldRetry
        (.bceError { StatusCode := 503, Body := "" }) 0 = true ∧
    (NewDefaultRetryPolicy 3 (20 * Second)).shouldRetry
        (.bceError { StatusCode := 500, Body := "" }) 0 = true := by
  decide

/-- Claim C7 as amended. For every policy and every attempt count
`n ≤ maxRetries`, an API error of status 502 is classified as terminal
(`shouldRetry` is false and `GetDelayBeforeNextRetry` returns the stop value -1),
while API errors of status 503 and 500 are classified as retryable. These two are
the only statuses classified as retryable: for every API error, `shouldRetry` is
true if and only if its status is 503 or 500, and for every other status
`GetDelayBeforeNextRetry` returns the stop value -1. -/
theorem shouldRetry_502_terminal (policy : DefaultRetryPolicy) (n : Int) (body : String)
    (hn : n ≤ policy.MaxErrorRetry) :
    policy.shouldRetry (.bceError { StatusCode := 502, Body := body }) n = false ∧
    policy.GetDelayBeforeNextRetry (.bceError { StatusCode := 502, Body := body }) n = -1 ∧
    policy.shouldRetry (.bceError { StatusCode := 503, Body := body }) n = true ∧
    policy.shouldRetry (.bceError { StatusCode := 500, Body := body }) n = true ∧
    (∀ e : Error, policy.shouldRetry (.bceError e) n = true ↔
      (e.StatusCode = 503 ∨ e.StatusCode = 500)) ∧
    (∀ e : Error, e.StatusCode ≠ 503 → e.StatusCode ≠ 500 →
      policy.GetDelayBeforeNextRetry (.bceError e) n = -1) := by
  have h : ¬ n > policy.GetMaxErrorRetry := by
    simp only [DefaultRetryPolicy.GetMaxErrorRetry]; omega
  refine ⟨?_, ?_, ?_, ?_, ?_, ?_⟩
  · simp [DefaultRetryPolicy.shouldRetry, h, StatusInternalServerError,
      StatusServiceUnavailable]
  · simp [DefaultRetryPolicy.GetDelayBeforeNextRetry, DefaultRetryPolicy.shouldRetry, h,
      StatusInternalServerError, StatusServiceUnavailable]
  · simp [DefaultRetryPolicy.shouldRetry, h, StatusInternalServerError,
      StatusServiceUnavailable]
  · simp [DefaultRetryPolicy.shouldRetry, h, StatusInternalServerError,
      StatusServiceUnavailable]
  · intro e
    by_cases h5 : e.StatusCode = 500
    · simp [DefaultRetryPolicy.shouldRetry, h, StatusInternalServerError,
        StatusServiceUnavailable, h5]
    · by_cases h3 : e.StatusCode = 503
      · simp [DefaultRetryPolicy.shouldRetry, h, StatusInternalServerError,
          StatusServiceUnavailable, h3]
      · simp [DefaultRetryPolicy.shouldRetry, h, StatusInternalServerError,
          StatusServiceUnavailable, h3, h5]
  · intro e h3 h5
    simp [DefaultRetryPolicy.GetDelayBeforeNextRetry, DefaultRetryPolicy.shouldRetry, h,
      StatusInternalServerError, StatusServiceUnavailable, h3, h5]

/-- Claim C7 as amended, at `DefaultRetryPolicy(3, 20s)` and attempt count 2: the
statuses 502 and 504 are terminal, 503 and 500 are retryable. -/
theorem shouldRetry_502_terminal_witness :
    (2 : Int) ≤ (NewDefaultRetryPolicy 3 (20 * Second)).MaxErrorRetry ∧
    (NewDefaultRetryPolicy 3 (20 * Second)).shouldRetry
        (.bceError { StatusCode := 504, Body := "gateway timeout" }) 2 = false ∧
    ((NewDefaultRetryPolicy 3 (20 * Second)).shouldRetry
        (.bceError { StatusCode := 502, Body := "bad gateway" }) 2 = false ∧
    (NewDefaultRetryPolicy 3 (20 * Second)).GetDelayBeforeNextRetry
        (.bceError { StatusCode := 502, Body := "bad gateway" }) 2 = -1 ∧
    (NewDefaultRetryPolicy 3 (20 * Second)).shouldRetry
        (.bceError { StatusCode := 503, Body := "bad gateway" }) 2 = true ∧
    (NewDefaultRetryPolicy 3 (20 * Second)).shouldRetry
        (.bceError { StatusCode := 500, Body := "bad gateway" }) 2 = true ∧
    (∀ e : Error, (NewDefaultRetryPolicy 3 (20 * Second)).shouldRetry (.bceError e) 2 = true ↔
      (e.StatusCode = 503 ∨ e.StatusCode = 500)) ∧
    (∀ e : Error, e.StatusCode ≠ 503 → e.StatusCode ≠ 500 →
      (NewDefaultRetryPolicy 3 (20 * Second)).GetDelayBeforeNextRetry (.bceError e) 2 = -1)) :=
  ⟨by decide, by decide,
   shouldRetry_502_terminal (NewDefaultRetryPolicy 3 (20 * Second)) 2 "bad gateway" (by decide)⟩

/-! ## C8: which errors are retryable -/

/-- Claim C8. For every policy, error `err` and attempt count `n`: `shouldRetry` is
true if and only if `n ≤ maxRetries` and `err` is either a transport-level error
(not an API error) or an API error of status 500 or 503. When `shouldRetry` is
false `GetDelayBeforeNextRetry` returns -1; when it is true the function does not
take that early return and answers the backoff capped at `MaxDelay`; and for
`n > maxRetries` the policy always signals stop. -/
theorem shouldRetry_iff (policy : DefaultRetryPolicy) (err : GoError) (n : Int) :
    (policy.shouldRetry err n = true ↔
      n ≤ policy.MaxErrorRetry ∧
        ((∃ msg, err = .errorString msg) ∨
         (∃ e, err = .bceError e ∧ (e.StatusCode = 500 ∨ e.StatusCode = 503)))) ∧
    (policy.shouldRetry err n = false → policy.GetDelayBeforeNextRetry err n = -1) ∧
    (policy.shouldRetry err n = true →
      policy.GetDelayBeforeNextRetry err n =
        if backoffDuration n > policy.MaxDelay then policy.MaxDelay else backoffDuration n) ∧
    (n > policy.MaxErrorRetry →
      policy.shouldRetry err n = false ∧ policy.GetDelayBeforeNextRetry err n = -1) := by
  refine ⟨?_, ?_, ?_, ?_⟩
  · by_cases h : n > policy.MaxErrorRetry
    · simp [DefaultRetryPolicy.shouldRetry, DefaultRetryPolicy.GetMaxErrorRetry, h]
    · have hle : n ≤ policy.MaxErrorRetry := by omega
      cases err with
      | errorString msg =>
        simp [DefaultRetryPolicy.shouldRetry, DefaultRetryPolicy.GetMaxErrorRetry, h, hle]
      | bceError e =>
        by_cases h5 : e.StatusCode = 500
        · simp [DefaultRetryPolicy.shouldRetry, DefaultRetryPolicy.GetMaxErrorRetry, hle,
            StatusInternalServerError, StatusServiceUnavailable, h5]
        · by_cases h3 : e.StatusCode = 503
          · simp [DefaultRetryPolicy.shouldRetry, DefaultRetryPolicy.GetMaxErrorRetry, hle,
              StatusInternalServerError, StatusServiceUnavailable, h3]
          · simp [DefaultRetryPolicy.shouldRetry, DefaultRetryPolicy.GetMaxErrorRetry, hle,
              StatusInternalServerError, StatusServiceUnavailable, h5, h3]
  · intro h
    simp [DefaultRetryPolicy.GetDelayBeforeNextRetry, h]
  · intro h
    simp [DefaultRetryPolicy.GetDelayBeforeNextRetry, h, DefaultRetryPolicy.GetMaxDelay]
  · intro h
    have hs : policy.shouldRetry err n = false := by
      simp [DefaultRetryPolicy.shouldRetry, DefaultRetryPolicy.GetMaxErrorRetry, h]
    exact ⟨hs, by simp [DefaultRetryPolicy.GetDelayBeforeNextRetry, hs]⟩

/-! ## C9: the delay never exceeds the maximal delay -/

/-- Claim C9. For every error, every `maxRetries`, every non-negative `maxDelay`
and every attempt count `n` (so in particular every `n ≤ maxRetries`, and also the
`n` for which `300ms * 2^n` leaves the 64-bit range), the value
`GetDelayBeforeNextRetry` returns is at most `maxDelay`. -/
theorem GetDelayBeforeNextRetry_le_MaxDelay (policy : DefaultRetryPolicy) (err : GoError)
    (n : Int) (hdelay : 0 ≤ policy.MaxDelay) :
    policy.GetDelayBeforeNextRetry err n ≤ policy.MaxDelay := by
  unfold DefaultRetryPolicy.GetDelayBeforeNextRetry DefaultRetryPolicy.GetMaxDelay
  split
  · omega
  · simp only []
    split <;> omega

/-- Claim C9 at `DefaultRetryPolicy(40, 20s)`, a transport error and attempt count
36, where `300ms * 2^36` is beyond the 64-bit range. -/
theorem GetDelayBeforeNextRetry_le_MaxDelay_witness :
    (0 : Int) ≤ (NewDefaultRetryPolicy 40 (20 * Second)).MaxDelay ∧
    (36 : Int) ≤ (NewDefaultRetryPolicy 40 (20 * Second)).MaxErrorRetry ∧
    (2 : Int) ^ 63 ≤ 300 * Millisecond * 2 ^ 36 ∧
    (NewDefaultRetryPolicy 40 (20 * Second)).GetDelayBeforeNextRetry
        (.errorString "connection refused") 36 ≤ (NewDefaultRetryPolicy 40 (20 * Second)).MaxDelay :=
  ⟨by decide, by decide, by decide,
   GetDelayBeforeNextRetry_le_MaxDelay (NewDefaultRetryPolicy 40 (20 * Second))
     (.errorString "connection refused") 36 (by decide)⟩

/-! ## C10: the exact delay -/

/-- Claim C10, evaluated where it fails. With `DefaultRetryPolicy(40, 20s)`, a
transport error (retryable) and attempt count 35, which is between 0 and
`maxRetries`: `GetDelayBeforeNextRetry` returns the negative duration
-8138822563309551616, the 64-bit wrap-around of `300ms * 2^35`, whereas
`min(maxDelay, 300ms * 2^35)` with the unbounded product is `maxDelay = 20s`. -/
theorem GetDelayBeforeNextRetry_wraps_at_35 :
    (0 : Int) ≤ 35 ∧ (35 : Int) ≤ (NewDefaultRetryPolicy 40 (20 * Second)).MaxErrorRetry ∧
    (NewDefaultRetryPolicy 40 (20 * Second)).shouldRetry
        (.errorString "connection refused") 35 = true ∧
    (NewDefaultRetryPolicy 40 (20 * Second)).GetDelayBeforeNextRetry
        (.errorString "connection refused") 35 = -8138822563309551616 ∧
    min (20 * Second) (300 * Millisecond * 2 ^ 35) = 20 * Second := by
  decide

/-- The exact delay where the backoff does not wrap. For every retryable error
and every attempt count `n` with `0 ≤ n ≤ 34`, `GetDelayBeforeNextRetry` returns
exactly `min(maxDelay, 300ms * 2^n)`. -/
theorem GetDelayBeforeNextRetry_exact (policy : DefaultRetryPolicy) (err : GoError) (n : Int)
    (h0 : 0 ≤ n) (h34 : n ≤ 34) (hretry : policy.shouldRetry err n = true) :
    policy.GetDelayBeforeNextRetry err n =
      min policy.MaxDelay (300 * Millisecond * 2 ^ n.toNat) := by
  simp only [DefaultRetryPolicy.GetDelayBeforeNextRetry, hretry, DefaultRetryPolicy.GetMaxDelay,
    backoffDuration_exact n h0 h34]
  simp only [Bool.not_true, Bool.false_eq_true, if_false]
  split
  · rw [min_eq_left]; omega
  · rw [min_eq_right]; omega

/-- The exact delay at `DefaultRetryPolicy(3, 20s)`, a transport error and attempt
count 2: 1200 ms. -/
theorem GetDelayBeforeNextRetry_exact_witness :
    (NewDefaultRetryPolicy 3 (20 * Second)).GetDelayBeforeNextRetry
        (.errorString "connection refused") 2 = 1200 * Millisecond :=
  (GetDelayBeforeNextRetry_exact (NewDefaultRetryPolicy 3 (20 * Second))
    (.errorString "connection refused") 2 (by decide) (by decide) (by decide)).trans (by decide)


/-! ## Termination of the loop of `SendRequest` -/

/-- At attempt count 35 the policy never answers a positive delay: the backoff has
wrapped around to a negative duration, and the result is that duration, a smaller
`MaxDelay`, or -1. -/
theorem GetDelayBeforeNextRetry_35_nonpos (policy : DefaultRetryPolicy) (err : GoError) :
    policy.GetDelayBeforeNextRetry err 35 ≤ 0 := by
  have hb : backoffDuration 35 = -8138822563309551616 := by decide
  unfold DefaultRetryPolicy.GetDelayBeforeNextRetry DefaultRetryPolicy.GetMaxDelay
  split
  · omega
  · simp only [hb]
    split <;> omega

/-- The loop of `SendRequest` returns: started at iteration `i ≤ 34` with fuel for
the iterations up to the 35th, it yields a result, whatever the policy and the
transport are. -/
theorem sendLoop_returns (policy : DefaultRetryPolicy) (Do : Nat → HttpOutcome) (buf : String) :
    ∀ (k i fuel : Nat), i + (k + 1) = 35 → k + 1 ≤ fuel →
      ∃ r, core.Client.sendLoop policy Do buf fuel i = some r := by
  intro k
  induction k with
  | zero =>
    intro i fuel hi hfuel
    obtain ⟨f, rfl⟩ : ∃ f, fuel = f + 1 := ⟨fuel - 1, by omega⟩
    have hi34 : i = 34 := by omega
    subst hi34
    have hw : wrapInt64 (((34 : Nat) : Int) + 1) = 35 := by decide
    simp only [core.Client.sendLoop, hw]
    cases Do 34 with
    | transportError msg =>
      simp [GetDelayBeforeNextRetry_35_nonpos]
    | response resp =>
      by_cases h400 : resp.StatusCode ≥ StatusBadRequest
      · simp [h400, GetDelayBeforeNextRetry_35_nonpos]
      · simp [h400]
  | succ k ih =>
    intro i fuel hi hfuel
    obtain ⟨f, rfl⟩ : ∃ f, fuel = f + 1 := ⟨fuel - 1, by omega⟩
    obtain ⟨r, hr⟩ := ih (i + 1) f (by omega) (by omega)
    simp only [core.Client.sendLoop]
    cases Do i with
    | transportError msg =>
      simp only []
      split
      · exact ⟨_, rfl⟩
      · exact ⟨_, by rw [hr]; rfl⟩
    | response resp =>
      simp only []
      split
      · split
        · exact ⟨_, rfl⟩
        · exact ⟨_, by rw [hr]; rfl⟩
      · exact ⟨_, rfl⟩

/-- The call `SendRequest` returns whenever it is given fuel for 35 iterations. -/
theorem SendRequest_returns (c : core.Client) (Do : Nat → HttpOutcome) (req : Request)
    (fuel : Nat) (hfuel : 35 ≤ fuel) : ∃ r, c.SendRequest Do req fuel = some r :=
  sendLoop_returns c.effectivePolicy Do _ 34 0 fuel (by omega) hfuel

/-- Every result of the loop of `SendRequest` has at least one send. -/
theorem httpSends_sendLoop_ne_nil (policy : DefaultRetryPolicy) (Do : Nat → HttpOutcome)
    (buf : String) (fuel i : Nat) (r : SendResult)
    (h : core.Client.sendLoop policy Do buf fuel i = some r) : httpSends r.trace ≠ [] := by
  cases fuel with
  | zero => simp [core.Client.sendLoop] at h
  | succ fuel =>
    simp only [core.Client.sendLoop] at h
    split at h
    · split at h
      · injection h with h
        subst h
        simp [httpSends]
      · cases hrec : core.Client.sendLoop policy Do buf fuel (i + 1) with
        | none => simp [hrec] at h
        | some r2 =>
          simp [hrec] at h
          subst h
          simp [httpSends]
    · split at h
      · split at h
        · injection h with h
          subst h
          simp [httpSends]
        · cases hrec : core.Client.sendLoop policy Do buf fuel (i + 1) with
          | none => simp [hrec] at h
          | some r2 =>
            simp [hrec] at h
            subst h
            simp [httpSends]
      · injection h with h
        subst h
        simp [httpSends]


/-! ## The order of `sort.Strings` -/

/-- Of two strings, one is not below the other. -/
theorem stringLE_total (a b : List UInt8) : stringLE a b ∨ stringLE b a := by
  unfold stringLE
  induction a generalizing b with
  | nil => cases b <;> simp [stringLess]
  | cons x xs ih =>
    cases b with
    | nil => simp [stringLess]
    | cons y ys =>
      simp only [stringLess]
      by_cases h1 : x.toNat < y.toNat
      · have h2 : ¬ y.toNat < x.toNat := by omega
        simp [h1, h2]
      · by_cases h2 : y.toNat < x.toNat
        · simp [h1, h2]
        · simpa [h1, h2] using ih ys

/-- Two strings neither of which is below the other are equal. -/
theorem stringLE_antisymm (a b : List UInt8) (hab : stringLE a b) (hba : stringLE b a) :
    a = b := by
  unfold stringLE at hab hba
  induction a generalizing b with
  | nil => cases b <;> simp [stringLess] at hab hba ⊢
  | cons x xs ih =>
    cases b with
    | nil => simp [stringLess] at hab hba
    | cons y ys =>
      simp only [stringLess] at hab hba
      by_cases h1 : x.toNat < y.toNat
      · simp [h1] at hba
      · by_cases h2 : y.toNat < x.toNat
        · simp [h2] at hab
        · simp only [h1, h2, if_false] at hab hba
          have hxy : x = y := UInt8.toNat.inj (by omega)
          rw [hxy, ih ys hab hba]

/-- The order of strings is transitive. -/
theorem stringLE_trans (a b c : List UInt8) (hab : stringLE a b) (hbc : stringLE b c) :
    stringLE a c := by
  unfold stringLE at hab hbc ⊢
  induction a generalizing b c with
  | nil => cases c <;> simp [stringLess]
  | cons x xs ih =>
    cases b with
    | nil => simp [stringLess] at hab
    | cons y ys =>
      cases c with
      | nil => simp [stringLess] at hbc
      | cons z zs =>
        simp only [stringLess] at hab hbc ⊢
        by_cases hyx : y.toNat < x.toNat
        · simp [hyx] at hab
        · by_cases hzy : z.toNat < y.toNat
          · simp [hzy] at hbc
          · by_cases hxy : x.toNat < y.toNat
            · have h1 : ¬ z.toNat < x.toNat := by omega
              have h2 : x.toNat < z.toNat := by omega
              simp [h1, h2]
            · by_cases hyz : y.toNat < z.toNat
              · have h1 : ¬ z.toNat < x.toNat := by omega
                have h2 : x.toNat < z.toNat := by omega
                simp [h1, h2]
              · have h1 : ¬ z.toNat < x.toNat := by omega
                have h2 : ¬ x.toNat < z.toNat := by omega
                simp only [hyx, hxy, hzy, hyz, if_false] at hab hbc
                simpa [h1, h2] using ih ys zs hab hbc

/-- The result of `sort.Strings` is in increasing order. -/
theorem sortStrings_sorted (l : List (List UInt8)) : (sortStrings l).Sorted stringLE := by
  haveI : IsTotal (List UInt8) stringLE := ⟨stringLE_total⟩
  haveI : IsTrans (List UInt8) stringLE := ⟨stringLE_trans⟩
  exact List.sorted_insertionSort stringLE l

/-- The result of `sort.Strings` is a permutation of its argument. -/
theorem sortStrings_perm (l : List (List UInt8)) : (sortStrings l).Perm l :=
  List.perm_insertionSort stringLE l

/-- A list in increasing order that is a permutation of `l` is `sortStrings l`:
the result of `sort.Strings` is determined by the order alone. -/
theorem sortStrings_unique (l s : List (List UInt8)) (hperm : s.Perm l)
    (hsorted : s.Sorted stringLE) : s = sortStrings l := by
  haveI : IsAntisymm (List UInt8) stringLE := ⟨stringLE_antisymm⟩
  exact List.eq_of_perm_of_sorted (hperm.trans (sortStrings_perm l).symm) hsorted
    (sortStrings_sorted l)

/-- Sorting two permutations of one list gives the same list. -/
theorem sortStrings_of_perm (l₁ l₂ : List (List UInt8)) (h : l₁.Perm l₂) :
    sortStrings l₁ = sortStrings l₂ :=
  sortStrings_unique l₂ (sortStrings l₁) ((sortStrings_perm l₁).trans h) (sortStrings_sorted l₁)

/-- The strings collected for two orders of iteration are permutations of each
other. -/
theorem encodedQueryStrings_perm (l₁ l₂ : List (List UInt8 × List UInt8)) (h : l₁.Perm l₂) :
    (encodedQueryStrings l₁).Perm (encodedQueryStrings l₂) := by
  induction h with
  | nil => exact List.Perm.refl _
  | cons x _ ih =>
    obtain ⟨key, value⟩ := x
    simp only [encodedQueryStrings]
    split
    · exact ih.cons _
    · exact ih
  | swap x y l =>
    obtain ⟨k1, v1⟩ := x
    obtain ⟨k2, v2⟩ := y
    simp only [encodedQueryStrings]
    by_cases h1 : k1 = [] <;> by_cases h2 : k2 = [] <;>
      simp only [ne_eq, h1, h2, not_true_eq_false, not_false_eq_true, if_true, if_false]
    · exact List.Perm.refl _
    · exact List.Perm.refl _
    · exact List.Perm.refl _
    · exact List.Perm.swap _ _ _
  | trans _ _ ih1 ih2 => exact ih1.trans ih2


/-! ## Percent-encoding -/

/-- The hexadecimal digits are `0`..`9` and `A`..`F`. -/
theorem upperhex_toNat (n : Nat) (h : n < 16) :
    (upperhex n).toNat = if n < 10 then 48 + n else 55 + n := by
  interval_cases n <;> decide

/-- The high and the low hexadecimal digit of a byte. -/
theorem hexDigits_lt (c : UInt8) : c.toNat / 16 < 16 ∧ c.toNat % 16 < 16 := by
  have := UInt8.toNat_lt c
  omega

/-- What `URLEncode` writes for the first byte of a string: the byte itself when it
is a letter, a digit or one of `-`, `_`, `.`, `~`, and otherwise `%` with the two
hexadecimal digits of the byte; a space is written `%20`. -/
theorem URLEncode_cons (c : UInt8) (s : List UInt8) :
    URLEncode (c :: s) =
      (if shouldEscape c then [37, upperhex (c.toNat / 16), upperhex (c.toNat % 16)] else [c])
        ++ URLEncode s := by
  obtain ⟨hhi, hlo⟩ := hexDigits_lt c
  have h1 : upperhex (c.toNat / 16) ≠ 43 := by
    intro h
    have := congrArg UInt8.toNat h
    rw [upperhex_toNat _ hhi] at this
    have h43 : (43 : UInt8).toNat = 43 := by decide
    rw [h43] at this
    split at this <;> omega
  have h2 : upperhex (c.toNat % 16) ≠ 43 := by
    intro h
    have := congrArg UInt8.toNat h
    rw [upperhex_toNat _ hlo] at this
    have h43 : (43 : UInt8).toNat = 43 := by decide
    rw [h43] at this
    split at this <;> omega
  simp only [URLEncode, QueryEscape, replacePlus, List.flatMap_cons, List.flatMap_append]
  congr 1
  by_cases h32 : c = 32
  · subst h32
    decide
  · by_cases hesc : shouldEscape c = true
    · simp [h32, hesc, h1, h2]
    · have h43 : c ≠ 43 := by
        intro h
        subst h
        exact hesc (by decide)
      simp [h32, hesc, h43]

/-- The encoding of the empty string is empty. -/
theorem URLEncode_nil : URLEncode [] = [] := rfl

/-- The encoding of a non-empty string is not empty. -/
theorem URLEncode_ne_nil (s : List UInt8) (h : s ≠ []) : URLEncode s ≠ [] := by
  cases s with
  | nil => exact absurd rfl h
  | cons c s =>
    rw [URLEncode_cons]
    split <;> simp

/-- No byte of an encoded string is `&`, `=` or `+`. -/
theorem URLEncode_bytes (s : List UInt8) :
    ∀ b ∈ URLEncode s, b ≠ 38 ∧ b ≠ 61 ∧ b ≠ 43 := by
  have key : ∀ b : UInt8, (b.toNat ≠ 38 ∧ b.toNat ≠ 61 ∧ b.toNat ≠ 43) →
      (b ≠ 38 ∧ b ≠ 61 ∧ b ≠ 43) := by
    intro b hb
    refine ⟨?_, ?_, ?_⟩ <;> intro h <;> subst h <;> simp at hb
  induction s with
  | nil => simp [URLEncode_nil]
  | cons c s ih =>
    intro b hb
    rw [URLEncode_cons, List.mem_append] at hb
    rcases hb with hb | hb
    · obtain ⟨hhi, hlo⟩ := hexDigits_lt c
      apply key
      by_cases hesc : shouldEscape c = true
      · simp only [hesc, if_true, List.mem_cons, List.mem_singleton, List.not_mem_nil,
          or_false] at hb
        rcases hb with rfl | rfl | rfl
        · decide
        · rw [upperhex_toNat _ hhi]
          split <;> omega
        · rw [upperhex_toNat _ hlo]
          split <;> omega
      · simp only [hesc, Bool.false_eq_true, if_false, List.mem_singleton] at hb
        subst hb
        simp only [shouldEscape] at hesc
        split at hesc
        · omega
        · split at hesc
          · omega
          · simp at hesc
    · exact ih b hb


/-- A hexadecimal digit determines its value. -/
theorem upperhex_injective (a b : Nat) (ha : a < 16) (hb : b < 16)
    (h : upperhex a = upperhex b) : a = b := by
  have := congrArg UInt8.toNat h
  rw [upperhex_toNat a ha, upperhex_toNat b hb] at this
  split at this <;> split at this <;> omega

/-- The encoding `URLEncode` is injective: two strings with the same encoding are
equal. -/
theorem URLEncode_injective (s t : List UInt8) (h : URLEncode s = URLEncode t) : s = t := by
  induction s generalizing t with
  | nil =>
    cases t with
    | nil => rfl
    | cons c t => exact absurd h.symm (URLEncode_ne_nil _ (by simp))
  | cons c s ih =>
    cases t with
    | nil => exact absurd h (URLEncode_ne_nil _ (by simp))
    | cons d t =>
      rw [URLEncode_cons, URLEncode_cons] at h
      obtain ⟨hc1, hc2⟩ := hexDigits_lt c
      obtain ⟨hd1, hd2⟩ := hexDigits_lt d
      by_cases hc : shouldEscape c = true <;> by_cases hd : shouldEscape d = true
      · simp only [hc, hd, if_true, List.cons_append, List.nil_append, List.cons.injEq,
          true_and] at h
        obtain ⟨h1, h2, h3⟩ := h
        have e1 := upperhex_injective _ _ hc1 hd1 h1
        have e2 := upperhex_injective _ _ hc2 hd2 h2
        have hcd : c = d := UInt8.toNat.inj (by omega)
        rw [hcd, ih t h3]
      · simp only [hc, hd, if_true, Bool.false_eq_true, if_false, List.cons_append,
          List.nil_append, List.cons.injEq] at h
        obtain ⟨h1, _⟩ := h
        subst h1
        exact absurd (by decide) hd
      · simp only [hc, hd, if_true, Bool.false_eq_true, if_false, List.cons_append,
          List.nil_append, List.cons.injEq] at h
        obtain ⟨h1, _⟩ := h
        subst h1
        exact absurd (by decide) hc
      · simp only [hc, hd, Bool.false_eq_true, if_false, List.cons_append, List.nil_append,
          List.cons.injEq] at h
        obtain ⟨h1, h2⟩ := h
        rw [h1, ih t h2]

/-! ## The tokens of `ToCanonicalQueryString` -/

/-- The token of an entry is the encoded key, the byte `=` and the encoded value;
for an empty value nothing follows the `=`. -/
theorem queryToken_eq (key value : List UInt8) :
    queryToken key value = URLEncode key ++ 61 :: URLEncode value := by
  unfold queryToken
  by_cases h : value = []
  · subst h
    simp [URLEncode_nil]
  · simp [h]

/-- A token is not empty and holds no byte `&` and no byte `+`. -/
theorem queryToken_bytes (key value : List UInt8) :
    queryToken key value ≠ [] ∧ (38 : UInt8) ∉ queryToken key value ∧
      (43 : UInt8) ∉ queryToken key value := by
  rw [queryToken_eq]
  refine ⟨by simp, ?_, ?_⟩
  · intro h
    rcases List.mem_append.1 h with h | h
    · exact (URLEncode_bytes key _ h).1 rfl
    · rcases List.mem_cons.1 h with h | h
      · exact absurd h (by decide)
      · exact (URLEncode_bytes value _ h).1 rfl
  · intro h
    rcases List.mem_append.1 h with h | h
    · exact (URLEncode_bytes key _ h).2.2 rfl
    · rcases List.mem_cons.1 h with h | h
      · exact absurd h (by decide)
      · exact (URLEncode_bytes value _ h).2.2 rfl

/-- The token determines the entry. -/
theorem queryToken_injective :
    Function.Injective fun entry : List UInt8 × List UInt8 => queryToken entry.1 entry.2 := by
  rintro ⟨k1, v1⟩ ⟨k2, v2⟩ h
  simp only [queryToken_eq] at h
  have hk : (61 : UInt8) ∉ URLEncode k1 := fun hm => (URLEncode_bytes k1 _ hm).2.1 rfl
  have hv : (61 : UInt8) ∉ URLEncode v1 := fun hm => (URLEncode_bytes v1 _ hm).2.1 rfl
  obtain ⟨h1, _, h2⟩ := (List.append_cons_inj_of_not_mem hk hv).1 h
  rw [URLEncode_injective _ _ h1, URLEncode_injective _ _ h2]

/-- The collected strings are the tokens of the entries with a non-empty key, in
the order of iteration. -/
theorem encodedQueryStrings_eq_map (entries : List (List UInt8 × List UInt8)) :
    encodedQueryStrings entries =
      (nonEmptyKeyEntries entries).map fun entry => queryToken entry.1 entry.2 := by
  induction entries with
  | nil => rfl
  | cons entry rest ih =>
    obtain ⟨key, value⟩ := entry
    by_cases h : key = []
    · simp [encodedQueryStrings, nonEmptyKeyEntries, h] at ih ⊢
      exact ih
    · simp [encodedQueryStrings, nonEmptyKeyEntries, h] at ih ⊢
      exact ih

/-- Every collected string is a token: not empty, without `&` and without `+`. -/
theorem encodedQueryStrings_bytes (entries : List (List UInt8 × List UInt8)) :
    ∀ token ∈ encodedQueryStrings entries,
      token ≠ [] ∧ (38 : UInt8) ∉ token ∧ (43 : UInt8) ∉ token := by
  intro token h
  rw [encodedQueryStrings_eq_map, List.mem_map] at h
  obtain ⟨entry, _, rfl⟩ := h
  exact queryToken_bytes entry.1 entry.2

/-- Splitting the joined tokens at `&` gives the tokens back. -/
theorem splitAmpersand_joinAmpersand (tokens : List (List UInt8)) (hne : tokens ≠ [])
    (h : ∀ token ∈ tokens, (38 : UInt8) ∉ token) :
    splitAmpersand (joinAmpersand tokens) = tokens :=
  List.splitOn_intercalate tokens 38 h hne

/-- The joined tokens determine the tokens. -/
theorem joinAmpersand_injective (s t : List (List UInt8))
    (hs : ∀ token ∈ s, token ≠ [] ∧ (38 : UInt8) ∉ token)
    (ht : ∀ token ∈ t, token ≠ [] ∧ (38 : UInt8) ∉ token)
    (h : joinAmpersand s = joinAmpersand t) : s = t := by
  have hnil : splitAmpersand (joinAmpersand []) = [[]] := by decide
  by_cases hs0 : s = [] <;> by_cases ht0 : t = []
  · rw [hs0, ht0]
  · have e := splitAmpersand_joinAmpersand t ht0 (fun token hm => (ht token hm).2)
    rw [← h, hs0, hnil] at e
    have hm : ([] : List UInt8) ∈ t := by rw [← e]; simp
    exact absurd rfl (ht [] hm).1
  · have e := splitAmpersand_joinAmpersand s hs0 (fun token hm => (hs token hm).2)
    rw [h, ht0, hnil] at e
    have hm : ([] : List UInt8) ∈ s := by rw [← e]; simp
    exact absurd rfl (hs [] hm).1
  · have e1 := splitAmpersand_joinAmpersand s hs0 (fun token hm => (hs token hm).2)
    have e2 := splitAmpersand_joinAmpersand t ht0 (fun token hm => (ht token hm).2)
    rw [← e1, ← e2, h]


/-! ## C11: every attempt sends the same body -/

/-- Claim C11. For every client, every request (with or without a body) and every
sequence of transport outcomes, `SendRequest` returns (given fuel for 35
iterations), it has sent at least once, and every attempt, the first send and each
retry, carried exactly the bytes read from the request body once before the first
attempt (no bytes for a nil body). -/
theorem SendRequest_body_identical (c : core.Client) (Do : Nat → HttpOutcome) (req : Request)
    (fuel : Nat) (hfuel : 35 ≤ fuel) :
    ∃ r, c.SendRequest Do req fuel = some r ∧ httpSends r.trace ≠ [] ∧
      ∀ body ∈ httpSends r.trace, body = req.Body.getD "" := by
  obtain ⟨r, hr⟩ := SendRequest_returns c Do req fuel hfuel
  refine ⟨r, hr, ?_, ?_⟩
  · exact httpSends_sendLoop_ne_nil _ _ _ _ _ r hr
  · have := httpSends_sendLoop _ _ _ _ _ r hr
    cases hb : req.Body <;> simpa [hb] using this

/-- Claim C11 at a transport that answers 503 twice and then 200: three sends, all
with the body of the request. -/
theorem SendRequest_body_identical_witness :
    ((clientWith 3 (20 * Second)).SendRequest twice503Then200
        { Method := "POST", URL := "u", Body := some "payload" } 35).map
      (fun r => httpSends r.trace) = some ["payload", "payload", "payload"] ∧
    ∃ r, (clientWith 3 (20 * Second)).SendRequest twice503Then200
        { Method := "POST", URL := "u", Body := some "payload" } 35 = some r ∧
      httpSends r.trace ≠ [] ∧
      ∀ body ∈ httpSends r.trace, body = (some "payload").getD "" :=
  ⟨by decide,
   SendRequest_body_identical (clientWith 3 (20 * Second)) twice503Then200
     { Method := "POST", URL := "u", Body := some "payload" } 35 (by decide)⟩

/-! ## C12: which responses are errors -/

/-- Claim C12. Whenever an attempt (iteration `i` of the loop of `SendRequest`)
completes without a transport error, with the response `resp`: the loop returns
that response with a nil error at once, with no sleep and no further send, if and
only if the status is below 400. A status of 400 or more is turned into the error
`buildError resp`, with which the policy is consulted: the loop returns the
response with that error when the delay is not positive, and sleeps and goes on
otherwise; for the status 400 itself it returns the response with that error. -/
theorem sendLoop_response (policy : DefaultRetryPolicy) (Do : Nat → HttpOutcome) (buf : String)
    (fuel i : Nat) (resp : Response) (hDo : Do i = .response resp) :
    (core.Client.sendLoop policy Do buf (fuel + 1) i =
        some { response := some resp, err := none, trace := [.httpSend buf] } ↔
      resp.StatusCode < 400) ∧
    (400 ≤ resp.StatusCode →
      core.Client.sendLoop policy Do buf (fuel + 1) i =
        if policy.GetDelayBeforeNextRetry (buildError resp) (wrapInt64 ((i : Int) + 1)) ≤ 0 then
          some { response := some resp, err := some (buildError resp), trace := [.httpSend buf] }
        else
          (core.Client.sendLoop policy Do buf fuel (i + 1)).map fun r =>
            { r with trace := .httpSend buf :: .sleep (policy.GetDelayBeforeNextRetry
                (buildError resp) (wrapInt64 ((i : Int) + 1))) :: r.trace }) ∧
    (resp.StatusCode = 400 →
      core.Client.sendLoop policy Do buf (fuel + 1) i =
        some { response := some resp, err := some (buildError resp),
               trace := [.httpSend buf] }) := by
  refine ⟨?_, ?_, ?_⟩
  · constructor
    · intro h
      by_contra hlt
      have h400 : resp.StatusCode ≥ StatusBadRequest := by
        simp only [StatusBadRequest]; omega
      simp only [core.Client.sendLoop, hDo, h400, if_true] at h
      split at h
      · simp at h
      · cases hrec : core.Client.sendLoop policy Do buf fuel (i + 1) with
        | none => simp [hrec] at h
        | some r2 =>
          simp only [hrec, Option.map_some', Option.some.injEq] at h
          have := congrArg SendResult.trace h
          simp at this
    · intro hlt
      have h400 : ¬ resp.StatusCode ≥ StatusBadRequest := by
        simp only [StatusBadRequest]; omega
      simp [core.Client.sendLoop, hDo, h400]
  · intro hge
    have h400 : resp.StatusCode ≥ StatusBadRequest := by
      simp only [StatusBadRequest]; omega
    simp only [core.Client.sendLoop, hDo, h400, if_true]
  · intro heq
    have h400 : resp.StatusCode ≥ StatusBadRequest := by
      simp only [StatusBadRequest]; omega
    have hstop : policy.GetDelayBeforeNextRetry (buildError resp)
        (wrapInt64 ((i : Int) + 1)) = -1 := by
      simp [DefaultRetryPolicy.GetDelayBeforeNextRetry, DefaultRetryPolicy.shouldRetry,
        buildError, heq, StatusInternalServerError, StatusServiceUnavailable]
    simp [core.Client.sendLoop, hDo, h400, hstop]

/-- Claim C12 at a first attempt answered with status 399: returned at once with a
nil error; the same theorem at status 400 gives the error. -/
theorem sendLoop_response_witness :
    core.Client.sendLoop (NewDefaultRetryPolicy 3 (20 * Second)) (alwaysStatus 399) "x" 1 0 =
      some { response := some { StatusCode := 399, Body := "body" }, err := none,
             trace := [.httpSend "x"] } ∧
    core.Client.sendLoop (NewDefaultRetryPolicy 3 (20 * Second)) (alwaysStatus 400) "x" 1 0 =
      some { response := some { StatusCode := 400, Body := "body" },
             err := some (buildError { StatusCode := 400, Body := "body" }),
             trace := [.httpSend "x"] } :=
  ⟨(sendLoop_response (NewDefaultRetryPolicy 3 (20 * Second)) (alwaysStatus 399) "x" 0 0
      { StatusCode := 399, Body := "body" } rfl).1.2 (by decide),
   (sendLoop_response (NewDefaultRetryPolicy 3 (20 * Second)) (alwaysStatus 400) "x" 0 0
      { StatusCode := 400, Body := "body" } rfl).2.2 rfl⟩

/-! ## C13: a 4xx status is not retried -/

/-- Claim C13. For every client (any `DefaultRetryPolicy`, or none configured),
every request and every status from 400 to 499: when the first attempt receives
that status, `SendRequest` returns after that one send, without a sleep, the
response together with the error built from it. -/
theorem SendRequest_4xx_not_retried (c : core.Client) (Do : Nat → HttpOutcome) (req : Request)
    (fuel : Nat) (status : Int) (body : String) (h400 : 400 ≤ status) (h499 : status ≤ 499)
    (hDo : Do 0 = .response { StatusCode := status, Body := body }) :
    c.SendRequest Do req (fuel + 1) =
      some { response := some { StatusCode := status, Body := body },
             err := some (buildError { StatusCode := status, Body := body }),
             trace := [.httpSend (req.Body.getD "")] } := by
  have hge : status ≥ StatusBadRequest := by simp only [StatusBadRequest]; omega
  have h500 : ¬ status = StatusInternalServerError := by
    simp only [StatusInternalServerError]; omega
  have h503 : ¬ status = StatusServiceUnavailable := by
    simp only [StatusServiceUnavailable]; omega
  have hstop : ∀ n, c.effectivePolicy.GetDelayBeforeNextRetry
      (buildError { StatusCode := status, Body := body }) n = -1 := by
    intro n
    simp [DefaultRetryPolicy.GetDelayBeforeNextRetry, DefaultRetryPolicy.shouldRetry,
      buildError, h500, h503]
  have hbuf : (match req.Body with
      | some content => content
      | none => "") = req.Body.getD "" := by cases req.Body <;> rfl
  simp [core.Client.SendRequest, core.Client.sendLoop, hDo, hge, hstop, hbuf]

/-- Claim C13 at status 404 with `DefaultRetryPolicy(3, 20s)`: one send, no sleep,
the 404 error. -/
theorem SendRequest_4xx_not_retried_witness :
    (clientWith 3 (20 * Second)).SendRequest (alwaysStatus 404)
        { Method := "POST", URL := "u", Body := some "x" } (9 + 1) =
      some { response := some { StatusCode := 404, Body := "body" },
             err := some (buildError { StatusCode := 404, Body := "body" }),
             trace := [.httpSend ((some "x").getD "")] } :=
  SendRequest_4xx_not_retried (clientWith 3 (20 * Second)) (alwaysStatus 404)
    { Method := "POST", URL := "u", Body := some "x" } 9 404 "body" (by decide) (by decide) rfl

/-! ## C14: the query string does not depend on the order of iteration -/

/-- Claim C14. For every map, given as the list of its entries in one order of
iteration, and every permutation of that list, `ToCanonicalQueryString` returns
the same bytes. The keys need not even be distinct. -/
theorem ToCanonicalQueryString_perm (entries₁ entries₂ : List (List UInt8 × List UInt8))
    (h : entries₁.Perm entries₂) :
    ToCanonicalQueryString (some entries₁) = ToCanonicalQueryString (some entries₂) := by
  simp only [ToCanonicalQueryString]
  rw [sortStrings_of_perm _ _ (encodedQueryStrings_perm _ _ h)]

/-- Claim C14 at the map of Scenario D in its two orders of iteration. -/
theorem ToCanonicalQueryString_perm_witness :
    scenarioD.Perm scenarioDSwapped ∧
    ToCanonicalQueryString (some scenarioD) = goString "a=1%20x&b=2" ∧
    ToCanonicalQueryString (some scenarioD) = ToCanonicalQueryString (some scenarioDSwapped) :=
  ⟨List.Perm.swap _ _ _, by decide,
   ToCanonicalQueryString_perm scenarioD scenarioDSwapped (List.Perm.swap _ _ _)⟩

/-! ## C15: different maps, different query strings -/

/-- Claim C15 fails as stated. The maps `a -> 1` and `a -> 1` plus an entry under
the empty key differ by content (each has distinct keys, and the second has an
entry the first lacks), yet both are encoded as `a=1`, which is not empty. -/
theorem ToCanonicalQueryString_empty_key_counterexample :
    (mapA1.map Prod.fst).Nodup ∧ (mapA1EmptyKey.map Prod.fst).Nodup ∧
    (goString "", goString "x") ∈ mapA1EmptyKey ∧ (goString "", goString "x") ∉ mapA1 ∧
    ToCanonicalQueryString (some mapA1) = goString "a=1" ∧
    ToCanonicalQueryString (some mapA1EmptyKey) = goString "a=1" ∧
    goString "a=1" ≠ [] := by
  decide

/-- Claim C15 as amended. For all maps, given as lists of entries: the two encoded
strings are equal if and only if the entries with a non-empty key of the one are
a rearrangement of those of the other; so when these entries differ (some
non-empty key is present in only one map, or is mapped to different values) the
two encoded strings differ. Entries under the empty key are skipped by the encoder
and make no difference: a map is encoded as its entries with a non-empty key are,
and adding an entry under the empty key, with any value, does not change the
encoded string. -/
theorem ToCanonicalQueryString_injective (entries₁ entries₂ : List (List UInt8 × List UInt8)) :
    (ToCanonicalQueryString (some entries₁) = ToCanonicalQueryString (some entries₂) ↔
      (nonEmptyKeyEntries entries₁).Perm (nonEmptyKeyEntries entries₂)) ∧
    (¬ (nonEmptyKeyEntries entries₁).Perm (nonEmptyKeyEntries entries₂) →
      ToCanonicalQueryString (some entries₁) ≠ ToCanonicalQueryString (some entries₂)) ∧
    ToCanonicalQueryString (some entries₁) =
      ToCanonicalQueryString (some (nonEmptyKeyEntries entries₁)) ∧
    (∀ value : List UInt8,
      ToCanonicalQueryString (some (([], value) :: entries₁)) =
        ToCanonicalQueryString (some entries₁)) := by
  have hb : ∀ entries : List (List UInt8 × List UInt8),
      ∀ token ∈ sortStrings (encodedQueryStrings entries),
        token ≠ [] ∧ (38 : UInt8) ∉ token := by
    intro entries token hm
    have := encodedQueryStrings_bytes entries token ((sortStrings_perm _).mem_iff.1 hm)
    exact ⟨this.1, this.2.1⟩
  have hinj : ToCanonicalQueryString (some entries₁) = ToCanonicalQueryString (some entries₂) →
      (nonEmptyKeyEntries entries₁).Perm (nonEmptyKeyEntries entries₂) := by
    intro h
    simp only [ToCanonicalQueryString] at h
    have hs := joinAmpersand_injective _ _ (hb entries₁) (hb entries₂) h
    have hp : (encodedQueryStrings entries₁).Perm (encodedQueryStrings entries₂) := by
      have h1 := sortStrings_perm (encodedQueryStrings entries₁)
      have h2 := sortStrings_perm (encodedQueryStrings entries₂)
      rw [hs] at h1
      exact h1.symm.trans h2
    rw [encodedQueryStrings_eq_map, encodedQueryStrings_eq_map] at hp
    have hm : Multiset.map (fun entry : List UInt8 × List UInt8 => queryToken entry.1 entry.2)
          (nonEmptyKeyEntries entries₁ : Multiset (List UInt8 × List UInt8)) =
        Multiset.map (fun entry : List UInt8 × List UInt8 => queryToken entry.1 entry.2)
          (nonEmptyKeyEntries entries₂ : Multiset (List UInt8 × List UInt8)) := by
      simp only [Multiset.map_coe]
      exact Multiset.coe_eq_coe.2 hp
    exact Multiset.coe_eq_coe.1 (Multiset.map_injective queryToken_injective hm)
  have hsame : ∀ l₁ l₂ : List (List UInt8 × List UInt8),
      (nonEmptyKeyEntries l₁).Perm (nonEmptyKeyEntries l₂) →
        ToCanonicalQueryString (some l₁) = ToCanonicalQueryString (some l₂) := by
    intro l₁ l₂ hp
    simp only [ToCanonicalQueryString]
    rw [encodedQueryStrings_eq_map l₁, encodedQueryStrings_eq_map l₂,
      sortStrings_of_perm _ _ (hp.map _)]
  refine ⟨⟨hinj, hsame _ _⟩, fun hdiff h => hdiff (hinj h), ?_, ?_⟩
  · apply hsame
    simp [nonEmptyKeyEntries, List.filter_filter]
  · intro value
    apply hsame
    simp [nonEmptyKeyEntries]

/-- Claim C15 as amended, at the maps `a -> 2` and `a -> 1` plus an entry under
the empty key: their entries with a non-empty key differ, and so do the encoded
strings `a=2` and `a=1`; the entry under the empty key makes no difference. -/
theorem ToCanonicalQueryString_injective_witness :
    ToCanonicalQueryString (some mapA2) = goString "a=2" ∧
    ToCanonicalQueryString (some mapA1EmptyKey) = goString "a=1" ∧
    nonEmptyKeyEntries mapA1EmptyKey = mapA1 ∧
    ((ToCanonicalQueryString (some mapA2) = ToCanonicalQueryString (some mapA1EmptyKey) ↔
      (nonEmptyKeyEntries mapA2).Perm (nonEmptyKeyEntries mapA1EmptyKey)) ∧
    (¬ (nonEmptyKeyEntries mapA2).Perm (nonEmptyKeyEntries mapA1EmptyKey) →
      ToCanonicalQueryString (some mapA2) ≠ ToCanonicalQueryString (some mapA1EmptyKey)) ∧
    ToCanonicalQueryString (some mapA2) =
      ToCanonicalQueryString (some (nonEmptyKeyEntries mapA2)) ∧
    (∀ value : List UInt8,
      ToCanonicalQueryString (some (([], value) :: mapA2)) =
        ToCanonicalQueryString (some mapA2))) :=
  ⟨by decide, by decide, by decide, ToCanonicalQueryString_injective mapA2 mapA1EmptyKey⟩


/-! ## C16: sorted tokens joined by `&` -/

/-- Claim C16 fails as stated. The map with the two entries `"" -> x` and `a -> 1`
is encoded as `a=1`, which is not empty; splitting it at `&` gives the one string
`a=1`. That is not a permutation of the tokens of the two entries of the map,
whatever the token of an entry is: the entry under the empty key has none in the
result. -/
theorem ToCanonicalQueryString_empty_key_token_counterexample :
    mapA1EmptyKey.length = 2 ∧
    ToCanonicalQueryString (some mapA1EmptyKey) = goString "a=1" ∧
    ToCanonicalQueryString (some mapA1EmptyKey) ≠ [] ∧
    splitAmpersand (ToCanonicalQueryString (some mapA1EmptyKey)) = [goString "a=1"] ∧
    ¬ (splitAmpersand (ToCanonicalQueryString (some mapA1EmptyKey))).Perm
        (mapA1EmptyKey.map fun entry => queryToken entry.1 entry.2) ∧
    ∀ token : List UInt8 × List UInt8 → List UInt8,
      ¬ (splitAmpersand (ToCanonicalQueryString (some mapA1EmptyKey))).Perm
          (mapA1EmptyKey.map token) := by
  have hsplit : splitAmpersand (ToCanonicalQueryString (some mapA1EmptyKey)) =
      [goString "a=1"] := by decide
  have hall : ∀ token : List UInt8 × List UInt8 → List UInt8,
      ¬ (splitAmpersand (ToCanonicalQueryString (some mapA1EmptyKey))).Perm
          (mapA1EmptyKey.map token) := by
    intro token hp
    have hlen := hp.length_eq
    rw [hsplit] at hlen
    simp [mapA1EmptyKey] at hlen
  exact ⟨by decide, by decide, by decide, hsplit, hall _, hall⟩

/-- Claim C16 as amended. For every map, given as the list of its entries: the
result of `ToCanonicalQueryString` is the tokens of the entries with a non-empty
key (the entries under the empty key are skipped and have no token) in increasing
bytewise order, joined by `&`. Every token is the percent-encoded key, `=`, and
the percent-encoded value; no byte of the result is `+`; and splitting a non-empty
result at `&` yields a list in increasing order that is a permutation of the
tokens of the entries with a non-empty key. -/
theorem ToCanonicalQueryString_sorted_tokens (entries : List (List UInt8 × List UInt8)) :
    ToCanonicalQueryString (some entries) =
      joinAmpersand (sortStrings (encodedQueryStrings entries)) ∧
    encodedQueryStrings entries =
      (nonEmptyKeyEntries entries).map (fun entry => URLEncode entry.1 ++ 61 :: URLEncode entry.2) ∧
    (∀ b ∈ ToCanonicalQueryString (some entries), b ≠ 43) ∧
    (ToCanonicalQueryString (some entries) ≠ [] →
      (splitAmpersand (ToCanonicalQueryString (some entries))).Sorted stringLE ∧
      (splitAmpersand (ToCanonicalQueryString (some entries))).Perm
        (encodedQueryStrings entries) ∧
      (splitAmpersand (ToCanonicalQueryString (some entries))).Perm
        ((nonEmptyKeyEntries entries).map
          (fun entry => URLEncode entry.1 ++ 61 :: URLEncode entry.2))) := by
  have hb : ∀ token ∈ sortStrings (encodedQueryStrings entries),
      token ≠ [] ∧ (38 : UInt8) ∉ token ∧ (43 : UInt8) ∉ token := fun token hm =>
    encodedQueryStrings_bytes entries token ((sortStrings_perm _).mem_iff.1 hm)
  have hmap : encodedQueryStrings entries =
      (nonEmptyKeyEntries entries).map
        (fun entry => URLEncode entry.1 ++ 61 :: URLEncode entry.2) := by
    rw [encodedQueryStrings_eq_map]
    exact List.map_congr_left fun entry _ => queryToken_eq entry.1 entry.2
  refine ⟨rfl, hmap, ?_, ?_⟩
  · intro b hmem heq
    subst heq
    simp only [ToCanonicalQueryString, joinAmpersand] at hmem
    have hgen : ∀ tokens : List (List UInt8), (∀ token ∈ tokens, (43 : UInt8) ∉ token) →
        (43 : UInt8) ∉ [(38 : UInt8)].intercalate tokens := by
      intro tokens
      induction tokens with
      | nil => intro _; simp [List.intercalate]
      | cons t ts ih =>
        intro ht
        cases ts with
        | nil =>
          simpa [List.intercalate] using ht t (List.mem_cons_self _ _)
        | cons u us =>
          have h1 := ht t (List.mem_cons_self _ _)
          have h2 := ih (fun token hm => ht token (List.mem_cons_of_mem _ hm))
          simp only [List.intercalate, List.intersperse, List.flatten_cons, List.mem_append,
            not_or] at h2 ⊢
          refine ⟨h1, ?_, h2⟩
          decide
    exact hgen _ (fun token hm => (hb token hm).2.2) hmem
  · intro hne
    have hne' : sortStrings (encodedQueryStrings entries) ≠ [] := by
      intro h0
      apply hne
      simp [ToCanonicalQueryString, h0, joinAmpersand, List.intercalate]
    have hsplit : splitAmpersand (ToCanonicalQueryString (some entries)) =
        sortStrings (encodedQueryStrings entries) :=
      splitAmpersand_joinAmpersand _ hne' (fun token hm => (hb token hm).2.1)
    rw [hsplit]
    refine ⟨sortStrings_sorted _, sortStrings_perm _, ?_⟩
    rw [← hmap]
    exact sortStrings_perm _

/-- Claim C16 as amended, at Scenario D: the map `b -> 2`, `a -> 1 x` is encoded
as `a=1%20x&b=2`, and splitting that at `&` gives the two tokens in increasing
order. -/
theorem ToCanonicalQueryString_sorted_tokens_witness :
    nonEmptyKeyEntries scenarioD = scenarioD ∧
    ToCanonicalQueryString (some scenarioD) = goString "a=1%20x&b=2" ∧
    splitAmpersand (ToCanonicalQueryString (some scenarioD)) =
      [goString "a=1%20x", goString "b=2"] ∧
    (splitAmpersand (ToCanonicalQueryString (some scenarioD))).Sorted stringLE ∧
    (splitAmpersand (ToCanonicalQueryString (some scenarioD))).Perm
      (encodedQueryStrings scenarioD) ∧
    (splitAmpersand (ToCanonicalQueryString (some scenarioD))).Perm
      ((nonEmptyKeyEntries scenarioD).map
        (fun entry => URLEncode entry.1 ++ 61 :: URLEncode entry.2)) :=
  ⟨by decide, by decide, by decide,
   (ToCanonicalQueryString_sorted_tokens scenarioD).2.2.2 (by decide)⟩

/-! ## C17: the token of an entry -/

/-- Claim C17 fails as stated. The map with the single entry `a` mapped to the
empty value is encoded as `a=`, the encoded key followed by `=`, and not as the
bare encoded key `a`. -/
theorem queryToken_empty_value_counterexample :
    goString "a" ≠ [] ∧
    ToCanonicalQueryString (some [(goString "a", goString "")]) = goString "a=" ∧
    URLEncode (goString "a") = goString "a" ∧
    ToCanonicalQueryString (some [(goString "a", goString "")]) ≠ URLEncode (goString "a") := by
  decide

/-- Claim C17 as amended. For every non-empty key `k`: the token emitted for `k`
mapped to the empty value is `URLEncode(k)` followed by `=`, and the token emitted
for `k` mapped to a non-empty value `v` is `URLEncode(k) + "=" + URLEncode(v)`;
the token is what `ToCanonicalQueryString` returns for the map with that one
entry. -/
theorem queryToken_shape (key : List UInt8) (hkey : key ≠ []) :
    queryToken key [] = URLEncode key ++ [61] ∧
    ToCanonicalQueryString (some [(key, [])]) = URLEncode key ++ [61] ∧
    ∀ value : List UInt8, value ≠ [] →
      queryToken key value = URLEncode key ++ [61] ++ URLEncode value ∧
      ToCanonicalQueryString (some [(key, value)]) =
        URLEncode key ++ [61] ++ URLEncode value := by
  have hone : ∀ value : List UInt8,
      ToCanonicalQueryString (some [(key, value)]) = queryToken key value := by
    intro value
    simp [ToCanonicalQueryString, encodedQueryStrings, hkey, sortStrings, joinAmpersand,
      List.intercalate]
  refine ⟨by simp [queryToken], ?_, ?_⟩
  · rw [hone]
    simp [queryToken]
  · intro value hvalue
    rw [hone]
    simp [queryToken, hvalue]

/-- Claim C17 as amended, at the key `a b`: with the empty value the token is
`a%20b=`, with the value `c` it is `a%20b=c`. -/
theorem queryToken_shape_witness :
    URLEncode (goString "a b") = goString "a%20b" ∧
    queryToken (goString "a b") [] = URLEncode (goString "a b") ++ [61] ∧
    ToCanonicalQueryString (some [(goString "a b", [])]) = URLEncode (goString "a b") ++ [61] ∧
    ∀ value : List UInt8, value ≠ [] →
      queryToken (goString "a b") value =
        URLEncode (goString "a b") ++ [61] ++ URLEncode value ∧
      ToCanonicalQueryString (some [(goString "a b", value)]) =
        URLEncode (goString "a b") ++ [61] ++ URLEncode value :=
  ⟨by decide, queryToken_shape (goString "a b") (by decide)⟩

/-! ## C18: a delta that is not positive -/

/-- Claim C18. For every group and every delta ≤ 0, `IncreaseSize` returns the
error "size increase must be positive" and its trace is empty: it neither queries
the current size nor issues an add-instances call. -/
theorem IncreaseSize_nonpositive_delta (asg : AutoScalingGroup) (m : sgcloudManager)
    (delta : Int) (hdelta : delta ≤ 0) :
    asg.IncreaseSize m delta =
      (.failure (.errorString "size increase must be positive"), []) := by
  simp [AutoScalingGroup.IncreaseSize, hdelta]

/-- Claim C18 at delta 0 and at delta -3 for the group with bounds 1 and 5. -/
theorem IncreaseSize_nonpositive_delta_witness :
    (exampleGroup 1 5).IncreaseSize (exampleManager 1 5 2) 0 =
      (.failure (.errorString "size increase must be positive"), []) ∧
    (exampleGroup 1 5).IncreaseSize (exampleManager 1 5 2) (-3) =
      (.failure (.errorString "size increase must be positive"), []) :=
  ⟨IncreaseSize_nonpositive_delta (exampleGroup 1 5) (exampleManager 1 5 2) 0 (by decide),
   IncreaseSize_nonpositive_delta (exampleGroup 1 5) (exampleManager 1 5 2) (-3) (by decide)⟩

/-! ## C19: deleting no instance -/

/-- Claim C19. For every manager, `DeleteInstances` called with the empty list
returns success (a nil error) and its trace is empty: no registry lookup, no
remove-instances call and no sleep. -/
theorem DeleteInstances_empty (m : sgcloudManager) :
    m.DeleteInstances [] = (.success, []) ∧
    lookups (m.DeleteInstances []).2 = [] ∧
    removeCalls (m.DeleteInstances []).2 = [] ∧
    sleeps (m.DeleteInstances []).2 = [] :=
  ⟨rfl, rfl, rfl, rfl⟩

/-! ## C20: decreasing the target size -/

/-- Claim C20. For every group and every delta, negative, zero or positive,
`DecreaseTargetSize` returns the "not implemented" error and its trace is empty:
it issues no remote call. -/
theorem DecreaseTargetSize_not_implemented (asg : AutoScalingGroup) (m : sgcloudManager)
    (delta : Int) :
    asg.DecreaseTargetSize m delta = (.failure ErrNotImplemented, []) ∧
    (asg.DecreaseTargetSize m delta).1.isFailure = true ∧
    (asg.DecreaseTargetSize m delta).2 = [] :=
  ⟨rfl, rfl, rfl⟩



/-! ## C21: the size bounds of the registered groups -/

/-- A group that `buildAsgFromSpec` builds carries the name and the bounds of a
spec that `SpecFromString` accepted, and its bounds satisfy
`0 ≤ minSize ≤ maxSize`. -/
theorem buildAsgFromSpec_ok (parse : String → Except GoError NodeGroupSpec) (specStr : String)
    (manager : sgcloudManager) (asg : AutoScalingGroup)
    (h : buildAsgFromSpec parse specStr manager = .ok asg) :
    (∃ spec, SpecFromString parse specStr = .ok spec ∧ asg.groupID = spec.Name ∧
      asg.minSize = spec.MinSize ∧ asg.maxSize = spec.MaxSize) ∧
    0 ≤ asg.minSize ∧ asg.minSize ≤ asg.maxSize := by
  simp only [buildAsgFromSpec] at h
  cases hs : SpecFromString parse specStr with
  | error err => simp [hs] at h
  | ok spec =>
    simp only [hs, Except.ok.injEq] at h
    subst h
    refine ⟨⟨spec, rfl, rfl, rfl, rfl⟩, ?_⟩
    simp only [SpecFromString] at hs
    cases hp : parse specStr with
    | error err => simp [hp] at hs
    | ok parsed =>
      simp only [hp] at hs
      by_cases h1 : parsed.MinSize < 0
      · simp [h1] at hs
      · by_cases h2 : parsed.MaxSize < parsed.MinSize
        · simp [h1, h2] at hs
        · simp only [h1, h2, if_false, Except.ok.injEq] at hs
          subst hs
          simp only [buildAsg]
          omega

/-- Adding a node group keeps the groups already registered, in place, and keeps
the bounds of all groups within `0 ≤ minSize ≤ maxSize`. -/
theorem addNodeGroup_keeps (parse : String → Except GoError NodeGroupSpec)
    (sg : sgcloudCloudProvider) (spec : String)
    (hinv : ∀ asg ∈ sg.autoScalingGroup, 0 ≤ asg.minSize ∧ asg.minSize ≤ asg.maxSize) :
    sg.autoScalingGroup <+: (sg.addNodeGroup parse spec).1.autoScalingGroup ∧
    ∀ asg ∈ (sg.addNodeGroup parse spec).1.autoScalingGroup,
      0 ≤ asg.minSize ∧ asg.minSize ≤ asg.maxSize := by
  simp only [sgcloudCloudProvider.addNodeGroup]
  cases hb : buildAsgFromSpec parse spec sg.manager with
  | error err => exact ⟨List.prefix_refl _, hinv⟩
  | ok asg =>
    refine ⟨by simp [sgcloudCloudProvider.addAsg], ?_⟩
    intro x hx
    simp only [sgcloudCloudProvider.addAsg, List.mem_append, List.mem_singleton] at hx
    rcases hx with hx | rfl
    · exact hinv x hx
    · exact (buildAsgFromSpec_ok parse spec sg.manager x hb).2

/-- The loop over the specs keeps the bounds of all groups within
`0 ≤ minSize ≤ maxSize`. -/
theorem addNodeGroups_keeps (parse : String → Except GoError NodeGroupSpec)
    (specs : List String) :
    ∀ sg sg2 : sgcloudCloudProvider,
      (∀ asg ∈ sg.autoScalingGroup, 0 ≤ asg.minSize ∧ asg.minSize ≤ asg.maxSize) →
      sgcloudCloudProvider.addNodeGroups parse sg specs = .ok sg2 →
      ∀ asg ∈ sg2.autoScalingGroup, 0 ≤ asg.minSize ∧ asg.minSize ≤ asg.maxSize := by
  induction specs with
  | nil =>
    intro sg sg2 hinv h
    simp only [sgcloudCloudProvider.addNodeGroups, Except.ok.injEq] at h
    subst h
    exact hinv
  | cons spec rest ih =>
    intro sg sg2 hinv h
    simp only [sgcloudCloudProvider.addNodeGroups] at h
    have hk := (addNodeGroup_keeps parse sg spec hinv).2
    rcases ha : sg.addNodeGroup parse spec with ⟨sg1, e⟩
    rw [ha] at hk
    cases e with
    | some err => simp [ha] at h
    | none =>
      simp only [ha] at h
      exact ih sg1 sg2 hk h

/-- An operation after the construction keeps the groups already registered, in
place, and keeps the bounds of all groups within `0 ≤ minSize ≤ maxSize`. -/
theorem step_keeps (parse : String → Except GoError NodeGroupSpec)
    (sg : sgcloudCloudProvider) (op : ProviderOp)
    (hinv : ∀ asg ∈ sg.autoScalingGroup, 0 ≤ asg.minSize ∧ asg.minSize ≤ asg.maxSize) :
    sg.autoScalingGroup <+: (sg.step parse op).autoScalingGroup ∧
    ∀ asg ∈ (sg.step parse op).autoScalingGroup,
      0 ≤ asg.minSize ∧ asg.minSize ≤ asg.maxSize := by
  cases op with
  | addNodeGroup spec => exact addNodeGroup_keeps parse sg spec hinv
  | refresh => exact ⟨List.prefix_refl _, hinv⟩
  | cleanup => exact ⟨List.prefix_refl _, hinv⟩
  | increaseSize index delta => exact ⟨List.prefix_refl _, hinv⟩
  | deleteNodes index nodes => exact ⟨List.prefix_refl _, hinv⟩
  | decreaseTargetSize index delta => exact ⟨List.prefix_refl _, hinv⟩

/-- A run of operations keeps the groups already registered, in place, and keeps
the bounds of all groups within `0 ≤ minSize ≤ maxSize`. -/
theorem steps_keep (parse : String → Except GoError NodeGroupSpec) (ops : List ProviderOp) :
    ∀ sg : sgcloudCloudProvider,
      (∀ asg ∈ sg.autoScalingGroup, 0 ≤ asg.minSize ∧ asg.minSize ≤ asg.maxSize) →
      sg.autoScalingGroup <+:
        (ops.foldl (sgcloudCloudProvider.step parse) sg).autoScalingGroup ∧
      ∀ asg ∈ (ops.foldl (sgcloudCloudProvider.step parse) sg).autoScalingGroup,
        0 ≤ asg.minSize ∧ asg.minSize ≤ asg.maxSize := by
  induction ops with
  | nil => intro sg hinv; exact ⟨List.prefix_refl _, hinv⟩
  | cons op rest ih =>
    intro sg hinv
    obtain ⟨hp, hi⟩ := step_keeps parse sg op hinv
    obtain ⟨hp2, hi2⟩ := ih (sg.step parse op) hi
    exact ⟨hp.trans hp2, hi2⟩

/-- Claim C21. For every provider that `buildStaticallyDiscoveringProvider` builds
from a list of specs (each group made by `buildAsgFromSpec` calling `buildAsg`
with the `MinSize` and `MaxSize` of the spec), every registered group satisfies
`0 ≤ minSize ≤ maxSize`; and after every run of operations the groups registered
at construction are still there, in place and with the same `minSize` and
`maxSize`, and every registered group still satisfies `0 ≤ minSize ≤ maxSize`. -/
theorem registered_groups_bounds (parse : String → Except GoError NodeGroupSpec)
    (manager : sgcloudManager) (specs : List String) (sg : sgcloudCloudProvider)
    (ops : List ProviderOp)
    (hbuild : buildStaticallyDiscoveringProvider parse manager specs = .ok sg) :
    (∀ specStr asg, buildAsgFromSpec parse specStr manager = .ok asg →
      ∃ spec, SpecFromString parse specStr = .ok spec ∧
        asg = buildAsg manager spec.MinSize spec.MaxSize spec.Name) ∧
    (∀ asg ∈ sg.autoScalingGroup,
      0 ≤ asg.MinSize ∧ asg.MinSize ≤ asg.MaxSize) ∧
    sg.autoScalingGroup <+:
      (ops.foldl (sgcloudCloudProvider.step parse) sg).autoScalingGroup ∧
    (∀ asg ∈ (ops.foldl (sgcloudCloudProvider.step parse) sg).autoScalingGroup,
      0 ≤ asg.MinSize ∧ asg.MinSize ≤ asg.MaxSize) := by
  have hinv : ∀ asg ∈ sg.autoScalingGroup, 0 ≤ asg.minSize ∧ asg.minSize ≤ asg.maxSize :=
    addNodeGroups_keeps parse specs { manager := manager, autoScalingGroup := [] } sg
      (by simp) hbuild
  refine ⟨?_, hinv, steps_keep parse ops sg hinv⟩
  intro specStr asg h
  simp only [buildAsgFromSpec] at h
  cases hs : SpecFromString parse specStr with
  | error err => simp [hs] at h
  | ok spec =>
    simp only [hs, Except.ok.injEq] at h
    exact ⟨spec, rfl, h.symm⟩

/-- Claim C21 at the provider built from the spec `1:5:G1`, followed by a scale-up,
a refresh, the attempt to add `7:3:G2` (rejected: its maximum is below its
minimum) and a cleanup: the one group is still `G1` with bounds 1 and 5. -/
theorem registered_groups_bounds_witness :
    buildStaticallyDiscoveringProvider exampleParse (exampleManager 1 5 3) ["1:5:G1"] =
      .ok exampleProvider ∧
    (exampleOps.foldl (sgcloudCloudProvider.step exampleParse) exampleProvider).autoScalingGroup =
      [{ groupID := "G1", minSize := 1, maxSize := 5 }] ∧
    ((∀ specStr asg, buildAsgFromSpec exampleParse specStr (exampleManager 1 5 3) = .ok asg →
      ∃ spec, SpecFromString exampleParse specStr = .ok spec ∧
        asg = buildAsg (exampleManager 1 5 3) spec.MinSize spec.MaxSize spec.Name) ∧
    (∀ asg ∈ exampleProvider.autoScalingGroup,
      0 ≤ asg.MinSize ∧ asg.MinSize ≤ asg.MaxSize) ∧
    exampleProvider.autoScalingGroup <+:
      (exampleOps.foldl (sgcloudCloudProvider.step exampleParse)
        exampleProvider).autoScalingGroup ∧
    (∀ asg ∈ (exampleOps.foldl (sgcloudCloudProvider.step exampleParse)
        exampleProvider).autoScalingGroup,
      0 ≤ asg.MinSize ∧ asg.MinSize ≤ asg.MaxSize)) :=
  ⟨rfl, by decide,
   registered_groups_bounds exampleParse (exampleManager 1 5 3) ["1:5:G1"] exampleProvider
     exampleOps rfl⟩

/-! ## C22: `HostToURL` -/

/-- Claim C22, the failing input. The host `localhost:8080` does not begin with a
scheme followed by `://`, yet `HostToURL` returns it as it is, with the protocol
`http` as with no protocol, and not `http://localhost:8080`: the pattern
`^[[:alpha:]]+:` takes the host name and the colon before the port for a scheme.
`GetURL` then yields `localhost:8080/v1/cluster`. A host that begins with a digit
gets its scheme. -/
theorem HostToURL_host_with_port_unchanged :
    ¬ goString "://" <:+: goString "localhost:8080" ∧
    HostToURL (goString "localhost:8080") (goString "") = goString "localhost:8080" ∧
    HostToURL (goString "localhost:8080") (goString "http") = goString "localhost:8080" ∧
    HostToURL (goString "localhost:8080") (goString "http") ≠
      goString "http://localhost:8080" ∧
    GetURL (goString "http") (goString "localhost:8080") (goString "/v1/cluster") none =
      goString "localhost:8080/v1/cluster" ∧
    HostToURL (goString "127.0.0.1:8080") (goString "") = goString "http://127.0.0.1:8080" := by
  refine ⟨by decide, by decide, by decide, by decide, by decide, by decide⟩

/-- The strings accepted after the first letter: letters and then a colon. -/
theorem matchAlphasColon_iff (s : List UInt8) :
    matchAlphasColon s = true ↔
      ∃ letters rest, (∀ c ∈ letters, isAlpha c = true) ∧ s = letters ++ 58 :: rest := by
  induction s with
  | nil => simp [matchAlphasColon]
  | cons c s ih =>
    simp only [matchAlphasColon]
    by_cases h58 : c = 58
    · simp only [h58, if_true, true_iff]
      exact ⟨[], s, by simp, by simp⟩
    · simp only [h58, if_false]
      by_cases ha : isAlpha c = true
      · simp only [ha, if_true, ih]
        constructor
        · rintro ⟨letters, rest, hl, rfl⟩
          refine ⟨c :: letters, rest, ?_, by simp⟩
          intro x hx
          rcases List.mem_cons.1 hx with rfl | hx
          · exact ha
          · exact hl x hx
        · rintro ⟨letters, rest, hl, heq⟩
          cases letters with
          | nil =>
            simp only [List.nil_append, List.cons.injEq] at heq
            exact absurd heq.1 h58
          | cons d letters =>
            simp only [List.cons_append, List.cons.injEq] at heq
            exact ⟨letters, rest, fun x hx => hl x (List.mem_cons_of_mem _ hx), heq.2⟩
      · simp only [ha, Bool.false_eq_true, if_false, false_iff]
        rintro ⟨letters, rest, hl, heq⟩
        cases letters with
        | nil =>
          simp only [List.nil_append, List.cons.injEq] at heq
          exact absurd heq.1 h58
        | cons d letters =>
          simp only [List.cons_append, List.cons.injEq] at heq
          exact ha (heq.1 ▸ hl d (List.mem_cons_self _ _))

/-- What `HostToURL` returns, for every host and protocol. The pattern matches
exactly the hosts that begin with one or more ASCII letters followed by a colon; a
host it matches is returned unchanged, and every other host is returned as
`p ++ "://" ++ host`, with `p` the protocol, or `http` for the empty protocol. -/
theorem HostToURL_result (host protocol : List UInt8) :
    (matchSchemeRegexp host = true ↔
      ∃ letters rest, letters ≠ [] ∧ (∀ c ∈ letters, isAlpha c = true) ∧
        host = letters ++ 58 :: rest) ∧
    (matchSchemeRegexp host = true → HostToURL host protocol = host) ∧
    (matchSchemeRegexp host = false →
      HostToURL host protocol =
        (if protocol = [] then goString "http" else protocol) ++ goString "://" ++ host) := by
  refine ⟨?_, ?_, ?_⟩
  · cases host with
    | nil => simp [matchSchemeRegexp]
    | cons c s =>
      simp only [matchSchemeRegexp, Bool.and_eq_true, matchAlphasColon_iff]
      constructor
      · rintro ⟨ha, letters, rest, hl, rfl⟩
        refine ⟨c :: letters, rest, by simp, ?_, by simp⟩
        intro x hx
        rcases List.mem_cons.1 hx with rfl | hx
        · exact ha
        · exact hl x hx
      · rintro ⟨letters, rest, hne, hl, heq⟩
        cases letters with
        | nil => exact absurd rfl hne
        | cons d letters =>
          simp only [List.cons_append, List.cons.injEq] at heq
          exact ⟨heq.1 ▸ hl d (List.mem_cons_self _ _), letters, rest,
            fun x hx => hl x (List.mem_cons_of_mem _ hx), heq.2⟩
  · intro h
    simp [HostToURL, h]
  · intro h
    simp [HostToURL, h]

/-! ## C23: the number of sends and sleeps -/

/-- The loop of `SendRequest` started at iteration `i ≤ 34`: it returns, and with
`M` the larger of `MaxErrorRetry` and 0, the sends it makes from there on are at
most `max i M + 1 - i` and the sleeps at most `max i M - i`. -/
theorem sendLoop_bounds (policy : DefaultRetryPolicy) (Do : Nat → HttpOutcome) (buf : String)
    (M : Nat) (hM : policy.MaxErrorRetry ≤ (M : Int)) :
    ∀ (k i fuel : Nat), i + (k + 1) = 35 → k + 1 ≤ fuel →
      ∃ r, core.Client.sendLoop policy Do buf fuel i = some r ∧
        (httpSends r.trace).length + i ≤ max i M + 1 ∧
        (sleeps r.trace).length + i ≤ max i M := by
  have hretry : ∀ (err : GoError) (i : Nat),
      ¬ policy.GetDelayBeforeNextRetry err ((i : Int) + 1) ≤ 0 → i + 1 ≤ M := by
    intro err i hpos
    by_contra hgt
    apply hpos
    have hn : ((i : Int) + 1) > policy.GetMaxErrorRetry := by
      simp only [DefaultRetryPolicy.GetMaxErrorRetry]; omega
    simp [DefaultRetryPolicy.GetDelayBeforeNextRetry, DefaultRetryPolicy.shouldRetry, hn]
  intro k
  induction k with
  | zero =>
    intro i fuel hi hfuel
    obtain ⟨f, rfl⟩ : ∃ f, fuel = f + 1 := ⟨fuel - 1, by omega⟩
    have hi34 : i = 34 := by omega
    subst hi34
    have hw : wrapInt64 (((34 : Nat) : Int) + 1) = 35 := by decide
    simp only [core.Client.sendLoop, hw]
    cases Do 34 with
    | transportError msg =>
      simp [GetDelayBeforeNextRetry_35_nonpos, httpSends, sleeps]
    | response resp =>
      by_cases h400 : resp.StatusCode ≥ StatusBadRequest
      · simp [h400, GetDelayBeforeNextRetry_35_nonpos, httpSends, sleeps]
      · simp [h400, httpSends, sleeps]
  | succ k ih =>
    intro i fuel hi hfuel
    obtain ⟨f, rfl⟩ : ∃ f, fuel = f + 1 := ⟨fuel - 1, by omega⟩
    have hw : wrapInt64 ((i : Int) + 1) = (i : Int) + 1 :=
      wrapInt64_of_fits _ (by omega) (by unfold maxInt64; omega)
    obtain ⟨r, hr, hs, hz⟩ := ih (i + 1) f (by omega) (by omega)
    simp only [core.Client.sendLoop, hw]
    cases Do i with
    | transportError msg =>
      simp only []
      split
      · exact ⟨_, rfl, by simp only [httpSends, List.length_cons, List.length_nil]; omega,
          by simp only [sleeps, List.length_nil]; omega⟩
      · next hpos =>
        have hiM := hretry _ i hpos
        refine ⟨_, by rw [hr]; rfl, ?_, ?_⟩
        · simp only [httpSends, List.length_cons]; omega
        · simp only [sleeps, List.length_cons]; omega
    | response resp =>
      simp only []
      split
      · split
        · exact ⟨_, rfl, by simp only [httpSends, List.length_cons, List.length_nil]; omega,
          by simp only [sleeps, List.length_nil]; omega⟩
        · next hpos =>
          have hiM := hretry _ i hpos
          refine ⟨_, by rw [hr]; rfl, ?_, ?_⟩
          · simp only [httpSends, List.length_cons]; omega
          · simp only [sleeps, List.length_cons]; omega
      · exact ⟨_, rfl, by simp only [httpSends, List.length_cons, List.length_nil]; omega,
          by simp only [sleeps, List.length_nil]; omega⟩

/-- Claim C23. For every client, with the policy it has or the default one, every
request and every sequence of transport outcomes, `SendRequest` terminates (it
returns when given fuel for 35 iterations), the number of sends is at most
`max(maxRetries, 0) + 1` and the number of backoff sleeps at most
`max(maxRetries, 0)`. -/
theorem SendRequest_terminates_bounded (c : core.Client) (Do : Nat → HttpOutcome)
    (req : Request) (fuel : Nat) (hfuel : 35 ≤ fuel) :
    ∃ r, c.SendRequest Do req fuel = some r ∧
      ((httpSends r.trace).length : Int) ≤ max c.effectivePolicy.MaxErrorRetry 0 + 1 ∧
      ((sleeps r.trace).length : Int) ≤ max c.effectivePolicy.MaxErrorRetry 0 := by
  obtain ⟨r, hr, hs, hz⟩ := sendLoop_bounds c.effectivePolicy Do
    (match req.Body with
      | some content => content
      | none => "")
    (max c.effectivePolicy.MaxErrorRetry 0).toNat (by omega) 34 0 fuel (by omega) hfuel
  refine ⟨r, hr, ?_, ?_⟩ <;> omega

/-- Claim C23 at `DefaultRetryPolicy(3, 20s)` and a transport that answers 503
twice and then 200: three sends and two sleeps, within the bounds 4 and 3. -/
theorem SendRequest_terminates_bounded_witness :
    ((clientWith 3 (20 * Second)).SendRequest twice503Then200
        { Method := "POST", URL := "u", Body := some "x" } 35).map
      (fun r => ((httpSends r.trace).length, (sleeps r.trace).length)) = some (3, 2) ∧
    ∃ r, (clientWith 3 (20 * Second)).SendRequest twice503Then200
        { Method := "POST", URL := "u", Body := some "x" } 35 = some r ∧
      ((httpSends r.trace).length : Int) ≤
        max (clientWith 3 (20 * Second)).effectivePolicy.MaxErrorRetry 0 + 1 ∧
      ((sleeps r.trace).length : Int) ≤
        max (clientWith 3 (20 * Second)).effectivePolicy.MaxErrorRetry 0 :=
  ⟨by decide,
   SendRequest_terminates_bounded (clientWith 3 (20 * Second)) twice503Then200
     { Method := "POST", URL := "u", Body := some "x" } 35 (by decide)⟩


/-! ## C24: provider ids -/

/-- The split never yields an empty list of pieces. -/
theorem splitSlashSlash_ne_nil (s : List Char) : ∀ cur : List Char, splitSlashSlash cur s ≠ [] := by
  induction s with
  | nil => intro cur; simp [splitSlashSlash.eq_1]
  | cons c rest ih =>
    intro cur
    by_cases h : ∃ r, c = '/' ∧ rest = '/' :: r
    · obtain ⟨r, rfl, rfl⟩ := h
      simp [splitSlashSlash.eq_2]
    · rw [splitSlashSlash.eq_3 cur c rest (fun r h1 h2 => h ⟨r, h1, h2⟩)]
      exact ih _

/-- A string without `//` is a single piece. -/
theorem splitSlashSlash_of_not_infix (s : List Char) :
    ∀ cur : List Char, ¬ ['/', '/'] <:+: s → splitSlashSlash cur s = [cur ++ s] := by
  induction s with
  | nil => intro cur _; simp [splitSlashSlash.eq_1]
  | cons c rest ih =>
    intro cur hno
    have hrest : ¬ ['/', '/'] <:+: rest := fun h => hno (List.infix_cons h)
    by_cases h : ∃ r, c = '/' ∧ rest = '/' :: r
    · obtain ⟨r, rfl, rfl⟩ := h
      exact absurd ⟨[], r, by simp⟩ hno
    · rw [splitSlashSlash.eq_3 cur c rest (fun r h1 h2 => h ⟨r, h1, h2⟩), ih _ hrest]
      simp

/-- A string with `//` splits into at least two pieces, and the first piece ends
before the end of the string. -/
theorem splitSlashSlash_of_infix (s : List Char) :
    ∀ cur : List Char, ['/', '/'] <:+: s →
      ∃ p second tail, splitSlashSlash cur s = (cur ++ p) :: second :: tail ∧
        p.length < s.length := by
  induction s with
  | nil =>
    intro cur h
    have := List.eq_nil_of_infix_nil h
    simp at this
  | cons c rest ih =>
    intro cur hinf
    by_cases h : ∃ r, c = '/' ∧ rest = '/' :: r
    · obtain ⟨r, rfl, rfl⟩ := h
      obtain ⟨second, tail, hst⟩ := List.exists_cons_of_ne_nil (splitSlashSlash_ne_nil r [])
      exact ⟨[], second, tail, by simp [splitSlashSlash.eq_2, hst], by simp⟩
    · have hrest : ['/', '/'] <:+: rest := by
        rcases List.infix_cons_iff.1 hinf with hp | hi
        · exfalso
          obtain ⟨t, ht⟩ := hp
          simp only [List.cons_append, List.nil_append, List.cons.injEq] at ht
          exact h ⟨t, ht.1.symm, ht.2.symm⟩
        · exact hi
      obtain ⟨p, second, tail, hsp, hlen⟩ := ih (cur ++ [c]) hrest
      refine ⟨c :: p, second, tail, ?_, by simp; omega⟩
      rw [splitSlashSlash.eq_3 cur c rest (fun r h1 h2 => h ⟨r, h1, h2⟩), hsp]
      simp

/-- The pieces of a provider id built by `getNodeProviderID`: the scheme
`sgcloud:` and then the pieces of the instance id. -/
theorem splitSlashSlash_providerID (l : List Char) :
    splitSlashSlash [] ("sgcloud://".data ++ l) = "sgcloud:".data :: splitSlashSlash [] l := by
  have h : "sgcloud://".data = ['s', 'g', 'c', 'l', 'o', 'u', 'd', ':', '/', '/'] := rfl
  rw [h]
  simp only [List.cons_append, List.nil_append]
  rw [splitSlashSlash.eq_3 _ _ _ (fun _ h1 _ => absurd h1 (by decide)),
    splitSlashSlash.eq_3 _ _ _ (fun _ h1 _ => absurd h1 (by decide)),
    splitSlashSlash.eq_3 _ _ _ (fun _ h1 _ => absurd h1 (by decide)),
    splitSlashSlash.eq_3 _ _ _ (fun _ h1 _ => absurd h1 (by decide)),
    splitSlashSlash.eq_3 _ _ _ (fun _ h1 _ => absurd h1 (by decide)),
    splitSlashSlash.eq_3 _ _ _ (fun _ h1 _ => absurd h1 (by decide)),
    splitSlashSlash.eq_3 _ _ _ (fun _ h1 _ => absurd h1 (by decide)),
    splitSlashSlash.eq_3 _ _ _ (fun _ h1 _ => absurd h1 (by decide)),
    splitSlashSlash.eq_2]
  rfl

/-- Claim C24. For every instance id, `getInstanceIdFromProviderId` applied to
`getNodeProviderID(id)` succeeds, and the id it returns is `id` if and only if
`id` does not contain `//`; and for every string, `getInstanceIdFromProviderId`
returns an error if and only if the string contains no `//`. -/
theorem providerId_roundtrip (id : String) :
    (∃ r, getInstanceIdFromProviderId (getNodeProviderID id) = .ok r ∧
      (r = id ↔ ¬ ['/', '/'] <:+: id.data)) ∧
    ∀ s : String,
      (∃ err, getInstanceIdFromProviderId s = .error err) ↔ ¬ ['/', '/'] <:+: s.data := by
  constructor
  · have hdata : (getNodeProviderID id).data = "sgcloud://".data ++ id.data := by
      simp [getNodeProviderID]
    have hsplit : splitSlashSlash [] (getNodeProviderID id).data =
        "sgcloud:".data :: splitSlashSlash [] id.data := by
      rw [hdata]
      exact splitSlashSlash_providerID _
    by_cases hinf : ['/', '/'] <:+: id.data
    · obtain ⟨p, second, tail, hsp, hlen⟩ := splitSlashSlash_of_infix id.data [] hinf
      refine ⟨String.mk p, ?_, ?_⟩
      · simp only [getInstanceIdFromProviderId, hsplit, hsp, List.nil_append]
      · constructor
        · intro h
          have : p = id.data := by rw [← h]
          rw [this] at hlen
          exact absurd hlen (lt_irrefl _)
        · intro h
          exact absurd hinf h
    · refine ⟨id, ?_, ?_⟩
      · simp only [getInstanceIdFromProviderId, hsplit,
          splitSlashSlash_of_not_infix id.data [] hinf, List.nil_append]
      · simp [hinf]
  · intro s
    by_cases hinf : ['/', '/'] <:+: s.data
    · obtain ⟨p, second, tail, hsp, _⟩ := splitSlashSlash_of_infix s.data [] hinf
      simp [getInstanceIdFromProviderId, hsp, hinf]
    · simp [getInstanceIdFromProviderId, splitSlashSlash_of_not_infix s.data [] hinf, hinf]


/-- Claim C24 at the ids `i-1` and `a//b`: the first comes back as it was, the
second comes back as `a`; and the string `sgcloud:/i-1`, without `//`, is
rejected. -/
theorem providerId_roundtrip_witness :
    getInstanceIdFromProviderId (getNodeProviderID "i-1") = .ok "i-1" ∧
    getInstanceIdFromProviderId (getNodeProviderID "a//b") = .ok "a" ∧
    getInstanceIdFromProviderId "sgcloud:/i-1" =
      .error (.errorString "sgCloud: unexpected ProviderID format, providerID=sgcloud:/i-1") ∧
    ((∃ r, getInstanceIdFromProviderId (getNodeProviderID "a//b") = .ok r ∧
        (r = "a//b" ↔ ¬ ['/', '/'] <:+: "a//b".data)) ∧
      ∀ s : String,
        (∃ err, getInstanceIdFromProviderId s = .error err) ↔ ¬ ['/', '/'] <:+: s.data) :=
  ⟨rfl, rfl, rfl, providerId_roundtrip "a//b"⟩

/-! ## C25: the group read on the failure path of `DeleteInstances` -/

/-- Claim C25, the failing input. The registry answers nil without error for the
id `a`. `DeleteInstances(["a"])` then finds the same (nil) group for every id,
issues the remove call, and, when that call fails, reads `commonAsg.groupID`
through the nil pointer. With a remove call that succeeds the same ids are removed
although no registered group owns them. -/
theorem DeleteInstances_nil_group_dereferenced :
    unknownCache.FindForInstance "a" = .ok none ∧
    (unknownManager failingRemoveService).DeleteInstances ["a"] =
      (.nilDeref,
       [.findForInstance "a", .findForInstance "a",
        .removeInstances { ClusterID := "c1", NodeInfos := ["", "a"] }]) ∧
    (unknownManager (exampleService 3)).DeleteInstances ["a"] =
      (.success,
       [.findForInstance "a", .findForInstance "a",
        .removeInstances { ClusterID := "c1", NodeInfos := ["", "a"] },
        .sleep sdkCoolDownTimeout]) :=
  ⟨rfl, rfl, rfl⟩

/-- When `DeleteInstances` issues a remove call, every id was looked up without
error and every lookup gave one and the same pointer, which may be nil; the call
ends in a nil dereference exactly when that pointer is nil and the remove call
fails. -/
theorem DeleteInstances_remove_same_pointer (m : sgcloudManager) (instanceIds : List String)
    (hcall : removeCalls (m.DeleteInstances instanceIds).2 ≠ []) :
    ∃ commonAsg : Option Nat,
      (∀ instanceId ∈ instanceIds, m.asgCache.FindForInstance instanceId = .ok commonAsg) ∧
      ((m.DeleteInstances instanceIds).1 = .nilDeref ↔
        commonAsg = none ∧
          (m.service.RemoveInstances
            { ClusterID := m.cloudConfig.ClusterID,
              NodeInfos := List.replicate instanceIds.length "" ++ instanceIds }).isSome) := by
  cases instanceIds with
  | nil => simp [sgcloudManager.DeleteInstances, removeCalls] at hcall
  | cons first rest =>
    simp only [sgcloudManager.DeleteInstances] at hcall ⊢
    cases hl : m.asgCache.FindForInstance first with
    | error err => simp [hl, removeCalls] at hcall
    | ok commonAsg =>
      simp only [hl] at hcall ⊢
      have hnr := (removeCalls_checkSameAsg m commonAsg (first :: rest)).1
      rcases hc : m.checkSameAsg commonAsg (first :: rest) with ⟨r, t⟩
      rw [hc] at hnr
      simp only at hnr
      simp only [hc] at hcall ⊢
      cases r with
      | failure err => simp [removeCalls, hnr] at hcall
      | nilDeref => simp [removeCalls, hnr] at hcall
      | success =>
        have hall := checkSameAsg_success m commonAsg (first :: rest) (by rw [hc])
        refine ⟨commonAsg, hall, ?_⟩
        simp only []
        cases m.service.RemoveInstances
            { ClusterID := m.cloudConfig.ClusterID,
              NodeInfos := List.replicate (first :: rest).length "" ++ first :: rest } with
        | none => simp
        | some err =>
          cases commonAsg with
          | none => simp
          | some p => simp

/-- The property at `DeleteInstances(["a"])` over the registry that knows no
instance and a remove call that fails: the common pointer is nil. -/
theorem DeleteInstances_remove_same_pointer_witness :
    removeCalls ((unknownManager failingRemoveService).DeleteInstances ["a"]).2 ≠ [] ∧
    ∃ commonAsg : Option Nat,
      (∀ instanceId ∈ ["a"],
        (unknownManager failingRemoveService).asgCache.FindForInstance instanceId =
          .ok commonAsg) ∧
      (((unknownManager failingRemoveService).DeleteInstances ["a"]).1 = .nilDeref ↔
        commonAsg = none ∧
          ((unknownManager failingRemoveService).service.RemoveInstances
            { ClusterID := (unknownManager failingRemoveService).cloudConfig.ClusterID,
              NodeInfos := List.replicate ["a"].length "" ++ ["a"] }).isSome) :=
  ⟨by decide, DeleteInstances_remove_same_pointer (unknownManager failingRemoveService) ["a"]
    (by decide)⟩
end Sgcloud
